import Mathlib

/-!
# firetunnel: the Skytale scrambler (`src/firetunnel/scramble.c`)

A shallow embedding of `skytale`, `scramble` and `descramble`, followed by the
properties of the packet scrambler stated in the design document.

Modelling conventions

* A byte (`uint8_t`) is a `Fin 256`.  Arithmetic is carried out on the underlying
  natural number (the integer promotion of C) and stored back with `toU8`, which
  reduces modulo `2 ^ 8`.
* A non-null `uint8_t *` is modelled by the list of bytes that can be reached
  from it, so `p + k` is `List.drop k` of the bytes reachable from `p`.  A null
  pointer is `none`.
* Every memory access is bounds-checked: reading or writing outside the bytes
  reachable from the pointer yields `Fault.outOfBounds`; a failing `assert`
  yields `Fault.assertFailed`.
* `int` values are mathematical integers.  Every intermediate value computed by
  `scramble`/`descramble` lies between `0` and `len`, so no `int` computation can
  overflow.  `/` and `%` on `int` are the truncating `Int.tdiv` and `Int.tmod`.
* The global `arg_noscrambling` is passed explicitly as the first argument.
-/

namespace Firetunnel

/-- An 8-bit unsigned machine integer. -/
abbrev uint8_t := Fin 256

/-- Conversion of an `int` value to `uint8_t`: reduction modulo `2 ^ 8`. -/
def toU8 (n : Nat) : uint8_t := ⟨n % 256, Nat.mod_lt n (by decide)⟩

/-- The ways in which a call can abort. -/
inductive Fault where
  | assertFailed
  | outOfBounds
  deriving DecidableEq, Repr

/-- `#define BLOCKLEN 8` -/
def BLOCKLEN : Nat := 8

/-- The inner loop of `skytale` (source lines 47-50), for one input byte `b = *ptr`
and the current `mask_out`:
`for (i = 0, mask_in = 1; i < BLOCKLEN; i++, mask_in <<= 1)
   out[i] |= (*ptr & mask_in) ? mask_out : 0;`
The loop state is `(out, mask_in)`; `out` is the local 8-byte array. -/
def skytale_inner (b mask_out : uint8_t) (out : List uint8_t) : List uint8_t :=
  ((List.range BLOCKLEN).foldl
    (fun (st : List uint8_t × uint8_t) (i : Nat) =>
      (st.1.set i (toU8 ((st.1.getD i 0).val |||
          (if b.val &&& st.2.val ≠ 0 then mask_out.val else 0))),
       toU8 (st.2.val <<< 1)))
    (out, (1 : uint8_t))).1

/-- The outer loop of `skytale` (source lines 41-51):
`for (j = 0, ptr = in, mask_out = 1; j < BLOCKLEN; j++, ptr++, mask_out <<= 1)`.
The loop state is `(out, mask_out)`, `ptr` is `in + j`, and `out` starts as
`{0}`.  Reading `*ptr` outside the bytes reachable from `in` is a fault. -/
def skytale_outer (in_ : List uint8_t) : Except Fault (List uint8_t × uint8_t) :=
  (List.range BLOCKLEN).foldlM
    (fun (st : List uint8_t × uint8_t) (j : Nat) =>
      match in_.get? j with
      | none => Except.error Fault.outOfBounds
      | some b => Except.ok (skytale_inner b st.2 st.1, toU8 (st.2.val <<< 1)))
    (List.replicate BLOCKLEN (0 : uint8_t), (1 : uint8_t))

/-- `memcpy(dst, src, n)` where `src` is a local array of at least `n` bytes:
the first `n` bytes reachable from `dst` are replaced by those of `src`. -/
def memcpy (dst src : List uint8_t) (n : Nat) : Except Fault (List uint8_t) :=
  if n ≤ dst.length then Except.ok (src.take n ++ dst.drop n)
  else Except.error Fault.outOfBounds

/-- `static void skytale(uint8_t *in)`: the transposition routine.  The argument is
the list of bytes reachable from `in`; the result is that list after the call. -/
def skytale (in_ : List uint8_t) : Except Fault (List uint8_t) :=
  match skytale_outer in_ with
  | Except.error e => Except.error e
  | Except.ok st => memcpy in_ st.1 BLOCKLEN

/-- The call `skytale(ptr + off)` on the buffer `mem` reachable from `ptr`:
forms the pointer `ptr + off` (a fault unless it stays within the buffer or one
past its end), runs `skytale` on it, and returns the whole buffer afterwards. -/
def skytale_at (mem : List uint8_t) (off : Int) : Except Fault (List uint8_t) :=
  if 0 ≤ off ∧ off ≤ (mem.length : Int) then
    match skytale (mem.drop off.toNat) with
    | Except.error e => Except.error e
    | Except.ok v => Except.ok (mem.take off.toNat ++ v)
  else Except.error Fault.outOfBounds

/-- The loop `for (i = 0; i < (len / BLOCKLEN); i++) skytale(ptr + i * BLOCKLEN);`
shared by `scramble` (lines 71-72) and `descramble` (lines 92-93). -/
def block_loop (mem : List uint8_t) (len : Int) : Except Fault (List uint8_t) :=
  (List.range (len.tdiv (BLOCKLEN : Int)).toNat).foldlM
    (fun (m : List uint8_t) (i : Nat) => skytale_at m ((i : Int) * (BLOCKLEN : Int)))
    mem

/-- The statement `if (len % BLOCKLEN) skytale(ptr + len - BLOCKLEN);`
shared by `scramble` (lines 74-75) and `descramble` (lines 88-89). -/
def tail_step (mem : List uint8_t) (len : Int) : Except Fault (List uint8_t) :=
  if len.tmod (BLOCKLEN : Int) ≠ 0 then skytale_at mem (len - (BLOCKLEN : Int))
  else Except.ok mem

/-- `void scramble(uint8_t *ptr, int len, PacketHeader *hdr)` (lines 61-77).
`ptr` is `none` for a null pointer and otherwise the bytes reachable from it; the
result is the content of that buffer after the call.  `PacketHeader` is declared
in `firetunnel.h`; the function never looks at `hdr`. -/
def scramble {PacketHeader : Type} (arg_noscrambling : Int) (ptr : Option (List uint8_t))
    (len : Int) (_hdr : PacketHeader) : Except Fault (List uint8_t) :=
  match ptr with
  | none => Except.error Fault.assertFailed
  | some mem =>
    if arg_noscrambling ≠ 0 ∨ len < (BLOCKLEN : Int) then Except.ok mem
    else
      match block_loop mem len with
      | Except.error e => Except.error e
      | Except.ok m => tail_step m len

/-- `void descramble(uint8_t *ptr, int len, PacketHeader *hdr)` (lines 80-94). -/
def descramble {PacketHeader : Type} (arg_noscrambling : Int) (ptr : Option (List uint8_t))
    (len : Int) (_hdr : PacketHeader) : Except Fault (List uint8_t) :=
  match ptr with
  | none => Except.error Fault.assertFailed
  | some mem =>
    if arg_noscrambling ≠ 0 ∨ len < (BLOCKLEN : Int) then Except.ok mem
    else
      match tail_step mem len with
      | Except.error e => Except.error e
      | Except.ok m => block_loop m len

/-! ## The transform as the design document words it -/

/-- The byte whose bit `j` is `f j`, for `j` in `0..8`. -/
def ofBits (f : Nat → Bool) : uint8_t :=
  toU8 ((f 0).toNat + 2 * (f 1).toNat + 4 * (f 2).toNat + 8 * (f 3).toNat
    + 16 * (f 4).toNat + 32 * (f 5).toNat + 64 * (f 6).toNat + 128 * (f 7).toNat)

/-- The 8x8 bit-matrix transpose of a block, following the design document:
byte `i`, bit `j` of the output equals byte `j`, bit `i` of the input. -/
def spec_transpose (X : List uint8_t) : List uint8_t :=
  (List.range 8).map (fun i => ofBits (fun j => (X.getD j 0).val.testBit i))

/-- Transposing the 8 bytes `off .. off + 7` of a buffer, all other bytes untouched. -/
def spec_transpose_at (B : List uint8_t) (off : Nat) : List uint8_t :=
  B.take off ++ spec_transpose ((B.drop off).take 8) ++ B.drop (off + 8)

/-- The forward full-block pass of the design document: transpose is applied to
block 0, block 1, ..., block `⌊length/8⌋ − 1` (bytes `8b .. 8b + 7`), in that order. -/
def spec_full_blocks (B : List uint8_t) : List uint8_t :=
  (List.range (B.length / 8)).foldl (fun m b => spec_transpose_at m (8 * b)) B

/-- The tail transform of the design document: if the length is not a multiple of 8,
the final 8 bytes (bytes `L-8 .. L-1`) are transposed. -/
def spec_tail (B : List uint8_t) : List uint8_t :=
  if B.length % 8 = 0 then B else spec_transpose_at B (B.length - 8)

/-- Scramble as the design document orders its steps (for length at least 8 and the
toggle enabled): the forward full-block pass, then the tail transform. -/
def spec_scramble (B : List uint8_t) : List uint8_t :=
  spec_tail (spec_full_blocks B)

/-- Descramble as the design document orders its steps (for length at least 8 and
the toggle enabled): the tail transform first, then the forward full-block pass. -/
def spec_descramble (B : List uint8_t) : List uint8_t :=
  spec_full_blocks (spec_tail B)

/-- The memory a call works on, as the caller sees it: the buffer `ptr` points to
(`none` for a null pointer) and the `PacketHeader` object `hdr` points to, the two
not overlapping. -/
structure CallState (PacketHeader : Type) where
  buf : Option (List uint8_t)
  hdr : PacketHeader

/-- The call `scramble(ptr, len, hdr)` as a transition of the caller's memory.  The
body of `scramble` mentions `hdr` only in `(void) hdr;` (line 63): it neither reads
nor writes the header object, so that object is the same after the call. -/
def scramble_call {PacketHeader : Type} (arg_noscrambling : Int)
    (s : CallState PacketHeader) (len : Int) : Except Fault (CallState PacketHeader) :=
  match scramble arg_noscrambling s.buf len s.hdr with
  | Except.error e => Except.error e
  | Except.ok m => Except.ok { buf := some m, hdr := s.hdr }

/-- The call `descramble(ptr, len, hdr)` as a transition of the caller's memory; `hdr`
is used only in `(void) hdr;` (line 82). -/
def descramble_call {PacketHeader : Type} (arg_noscrambling : Int)
    (s : CallState PacketHeader) (len : Int) : Except Fault (CallState PacketHeader) :=
  match descramble arg_noscrambling s.buf len s.hdr with
  | Except.error e => Except.error e
  | Except.ok m => Except.ok { buf := some m, hdr := s.hdr }

/-! ## Measures and operations on buffers used to state properties -/

/-- The number of set bits of a byte. -/
def popcount8 (a : uint8_t) : Nat :=
  ((List.range 8).map (fun j => (a.val.testBit j).toNat)).sum

/-- The total number of set bits of a buffer. -/
def set_bits (B : List uint8_t) : Nat :=
  (B.map popcount8).sum

/-- Exclusive or of two bytes. -/
def xor8 (a b : uint8_t) : uint8_t := toU8 (a.val ^^^ b.val)

/-- Byte-wise exclusive or of two buffers of the same length. -/
def xor_buf (B C : List uint8_t) : List uint8_t :=
  List.zipWith xor8 B C

/-- Block `b` of a buffer: the bytes `8b .. 8b + 7`. -/
def block (B : List uint8_t) (b : Nat) : List uint8_t :=
  (B.drop (8 * b)).take 8

/-- Transposing block `b` of a buffer that has such a block; other buffers are left
as they are. -/
def transpose_block (m : List uint8_t) (b : Nat) : List uint8_t :=
  if 8 * b + 8 ≤ m.length then spec_transpose_at m (8 * b) else m

/-! ## Properties of `skytale` -/

theorem and_mask_ne_zero (a : Nat) (i : Nat) : (a &&& 2 ^ i ≠ 0) ↔ a.testBit i = true := by
  rw [Nat.and_two_pow]
  cases a.testBit i <;> simp

theorem skytale_inner_eq (b m o0 o1 o2 o3 o4 o5 o6 o7 : uint8_t) :
    skytale_inner b m [o0, o1, o2, o3, o4, o5, o6, o7] =
      [toU8 (o0.val ||| (if b.val &&& 2 ^ 0 ≠ 0 then m.val else 0)),
       toU8 (o1.val ||| (if b.val &&& 2 ^ 1 ≠ 0 then m.val else 0)),
       toU8 (o2.val ||| (if b.val &&& 2 ^ 2 ≠ 0 then m.val else 0)),
       toU8 (o3.val ||| (if b.val &&& 2 ^ 3 ≠ 0 then m.val else 0)),
       toU8 (o4.val ||| (if b.val &&& 2 ^ 4 ≠ 0 then m.val else 0)),
       toU8 (o5.val ||| (if b.val &&& 2 ^ 5 ≠ 0 then m.val else 0)),
       toU8 (o6.val ||| (if b.val &&& 2 ^ 6 ≠ 0 then m.val else 0)),
       toU8 (o7.val ||| (if b.val &&& 2 ^ 7 ≠ 0 then m.val else 0))] := by
  have hr : List.range BLOCKLEN = [0, 1, 2, 3, 4, 5, 6, 7] := by decide
  have h0 : ((1 : uint8_t).val) = 2 ^ 0 := by decide
  have h1 : (toU8 (2 ^ 0 <<< 1)).val = 2 ^ 1 := by decide
  have h2 : (toU8 (2 ^ 1 <<< 1)).val = 2 ^ 2 := by decide
  have h3 : (toU8 (2 ^ 2 <<< 1)).val = 2 ^ 3 := by decide
  have h4 : (toU8 (2 ^ 3 <<< 1)).val = 2 ^ 4 := by decide
  have h5 : (toU8 (2 ^ 4 <<< 1)).val = 2 ^ 5 := by decide
  have h6 : (toU8 (2 ^ 5 <<< 1)).val = 2 ^ 6 := by decide
  have h7 : (toU8 (2 ^ 6 <<< 1)).val = 2 ^ 7 := by decide
  unfold skytale_inner
  rw [hr]
  simp only [List.foldl_cons, List.foldl_nil, List.set_cons_zero, List.set_cons_succ,
    List.getD_cons_zero, List.getD_cons_succ, h0, h1, h2, h3, h4, h5, h6, h7]

theorem outer_fold_eq (g : uint8_t → uint8_t → List uint8_t → List uint8_t)
    (a0 a1 a2 a3 a4 a5 a6 a7 : uint8_t) (rest out : List uint8_t) :
    [0, 1, 2, 3, 4, 5, 6, 7].foldlM
      (fun (st : List uint8_t × uint8_t) (j : Nat) =>
        match (a0 :: a1 :: a2 :: a3 :: a4 :: a5 :: a6 :: a7 :: rest).get? j with
        | none => Except.error Fault.outOfBounds
        | some b => Except.ok (g b st.2 st.1, toU8 (st.2.val <<< 1)))
      (out, (1 : uint8_t)) =
      Except.ok (g a7 128 (g a6 64 (g a5 32 (g a4 16 (g a3 8 (g a2 4 (g a1 2 (g a0 1
            out))))))), 0) := by
  have h1 : toU8 ((1 : uint8_t).val <<< 1) = 2 := by decide
  have h2 : toU8 ((2 : uint8_t).val <<< 1) = 4 := by decide
  have h3 : toU8 ((4 : uint8_t).val <<< 1) = 8 := by decide
  have h4 : toU8 ((8 : uint8_t).val <<< 1) = 16 := by decide
  have h5 : toU8 ((16 : uint8_t).val <<< 1) = 32 := by decide
  have h6 : toU8 ((32 : uint8_t).val <<< 1) = 64 := by decide
  have h7 : toU8 ((64 : uint8_t).val <<< 1) = 128 := by decide
  have h8 : toU8 ((128 : uint8_t).val <<< 1) = 0 := by decide
  simp only [List.foldlM_cons, List.foldlM_nil, List.get?_cons_zero, List.get?_cons_succ,
    bind, Except.bind, pure, Except.pure, h1, h2, h3, h4, h5, h6, h7, h8]

theorem skytale_outer_eq (a0 a1 a2 a3 a4 a5 a6 a7 : uint8_t) (rest : List uint8_t) :
    skytale_outer (a0 :: a1 :: a2 :: a3 :: a4 :: a5 :: a6 :: a7 :: rest) =
      Except.ok
        (skytale_inner a7 128 (skytale_inner a6 64 (skytale_inner a5 32 (skytale_inner a4 16
          (skytale_inner a3 8 (skytale_inner a2 4 (skytale_inner a1 2 (skytale_inner a0 1
            [0, 0, 0, 0, 0, 0, 0, 0]))))))), 0) := by
  have hr : List.range BLOCKLEN = [0, 1, 2, 3, 4, 5, 6, 7] := by decide
  have hz : List.replicate BLOCKLEN (0 : uint8_t) = [0, 0, 0, 0, 0, 0, 0, 0] := by decide
  unfold skytale_outer
  rw [hr, hz]
  exact outer_fold_eq skytale_inner a0 a1 a2 a3 a4 a5 a6 a7 rest _

theorem or_chain_eq (b0 b1 b2 b3 b4 b5 b6 b7 : Bool) :
    toU8 ((toU8 ((toU8 ((toU8 ((toU8 ((toU8 ((toU8 ((toU8 ((0 : uint8_t).val |||
      (if b0 = true then (1 : uint8_t).val else 0))).val |||
      (if b1 = true then (2 : uint8_t).val else 0))).val |||
      (if b2 = true then (4 : uint8_t).val else 0))).val |||
      (if b3 = true then (8 : uint8_t).val else 0))).val |||
      (if b4 = true then (16 : uint8_t).val else 0))).val |||
      (if b5 = true then (32 : uint8_t).val else 0))).val |||
      (if b6 = true then (64 : uint8_t).val else 0))).val |||
      (if b7 = true then (128 : uint8_t).val else 0))
    = ofBits (fun j => match j with
        | 0 => b0 | 1 => b1 | 2 => b2 | 3 => b3 | 4 => b4 | 5 => b5 | 6 => b6 | _ => b7) := by
  revert b0 b1 b2 b3 b4 b5 b6 b7
  decide

theorem skytale_cons8 (a0 a1 a2 a3 a4 a5 a6 a7 : uint8_t) (rest : List uint8_t) :
    skytale (a0 :: a1 :: a2 :: a3 :: a4 :: a5 :: a6 :: a7 :: rest)
      = Except.ok (spec_transpose [a0, a1, a2, a3, a4, a5, a6, a7] ++ rest) := by
  unfold skytale
  rw [skytale_outer_eq]
  simp only [skytale_inner_eq, and_mask_ne_zero, or_chain_eq]
  have hr : List.range 8 = [0, 1, 2, 3, 4, 5, 6, 7] := by decide
  have hl : BLOCKLEN ≤ (a0 :: a1 :: a2 :: a3 :: a4 :: a5 :: a6 :: a7 :: rest).length := by
    simp [BLOCKLEN]
  unfold memcpy spec_transpose
  rw [if_pos hl, hr]
  simp only [ofBits, BLOCKLEN, List.map_cons, List.map_nil, List.getD_cons_zero,
    List.getD_cons_succ, List.take_succ_cons, List.take_zero, List.drop_succ_cons, List.drop_zero]

theorem ofBits_bools (b0 b1 b2 b3 b4 b5 b6 b7 : Bool) :
    let v := (toU8 (b0.toNat + 2 * b1.toNat + 4 * b2.toNat + 8 * b3.toNat
      + 16 * b4.toNat + 32 * b5.toNat + 64 * b6.toNat + 128 * b7.toNat)).val
    v.testBit 0 = b0 ∧ v.testBit 1 = b1 ∧ v.testBit 2 = b2 ∧ v.testBit 3 = b3 ∧
    v.testBit 4 = b4 ∧ v.testBit 5 = b5 ∧ v.testBit 6 = b6 ∧ v.testBit 7 = b7 := by
  revert b0 b1 b2 b3 b4 b5 b6 b7
  decide

theorem testBit_ofBits (f : Nat → Bool) (j : Nat) (hj : j < 8) :
    (ofBits f).val.testBit j = f j := by
  have h := ofBits_bools (f 0) (f 1) (f 2) (f 3) (f 4) (f 5) (f 6) (f 7)
  simp only at h
  unfold ofBits
  obtain ⟨h0, h1, h2, h3, h4, h5, h6, h7⟩ := h
  interval_cases j
  · exact h0
  · exact h1
  · exact h2
  · exact h3
  · exact h4
  · exact h5
  · exact h6
  · exact h7

theorem testBit_uint8_high (a : uint8_t) (j : Nat) (hj : 8 ≤ j) : a.val.testBit j = false := by
  apply Nat.testBit_lt_two_pow
  calc a.val < 2 ^ 8 := a.isLt
    _ ≤ 2 ^ j := Nat.pow_le_pow_right (by decide) hj

theorem ofBits_testBit (a : uint8_t) : ofBits (fun j => a.val.testBit j) = a := by
  apply Fin.ext
  apply Nat.eq_of_testBit_eq
  intro j
  by_cases hj : j < 8
  · exact testBit_ofBits _ j hj
  · rw [testBit_uint8_high _ j (by omega), testBit_uint8_high _ j (by omega)]

theorem spec_transpose_eq (X : List uint8_t) :
    spec_transpose X =
      [ofBits (fun j => (X.getD j 0).val.testBit 0), ofBits (fun j => (X.getD j 0).val.testBit 1),
       ofBits (fun j => (X.getD j 0).val.testBit 2), ofBits (fun j => (X.getD j 0).val.testBit 3),
       ofBits (fun j => (X.getD j 0).val.testBit 4), ofBits (fun j => (X.getD j 0).val.testBit 5),
       ofBits (fun j => (X.getD j 0).val.testBit 6), ofBits (fun j => (X.getD j 0).val.testBit 7)] := by
  have hr : List.range 8 = [0, 1, 2, 3, 4, 5, 6, 7] := by decide
  unfold spec_transpose
  rw [hr]
  simp only [List.map_cons, List.map_nil]

theorem length_spec_transpose (X : List uint8_t) : (spec_transpose X).length = 8 := by
  simp [spec_transpose]

theorem getD_spec_transpose_testBit (X : List uint8_t) (i j : Nat) (hi : i < 8) (hj : j < 8) :
    ((spec_transpose X).getD i 0).val.testBit j = (X.getD j 0).val.testBit i := by
  rw [spec_transpose_eq]
  interval_cases i <;>
    simp only [List.getD_cons_zero, List.getD_cons_succ] <;>
    exact testBit_ofBits _ j hj

theorem exists_eq_cons8 (l : List uint8_t) (h : 8 ≤ l.length) :
    ∃ a0 a1 a2 a3 a4 a5 a6 a7 rest, l = a0 :: a1 :: a2 :: a3 :: a4 :: a5 :: a6 :: a7 :: rest := by
  match l, h with
  | a0 :: a1 :: a2 :: a3 :: a4 :: a5 :: a6 :: a7 :: rest, _ =>
    exact ⟨a0, a1, a2, a3, a4, a5, a6, a7, rest, rfl⟩

theorem spec_transpose_involutive (X : List uint8_t) (h : X.length = 8) :
    spec_transpose (spec_transpose X) = X := by
  obtain ⟨a0, a1, a2, a3, a4, a5, a6, a7, rest, rfl⟩ := exists_eq_cons8 X (by omega)
  have hrest : rest = [] := by
    simp at h
    exact h
  subst hrest
  have key : ∀ i, i < 8 → (spec_transpose (spec_transpose [a0, a1, a2, a3, a4, a5, a6, a7])).getD i 0
      = [a0, a1, a2, a3, a4, a5, a6, a7].getD i 0 := by
    intro i hi
    apply Fin.ext
    apply Nat.eq_of_testBit_eq
    intro j
    by_cases hj : j < 8
    · rw [getD_spec_transpose_testBit _ i j hi hj, getD_spec_transpose_testBit _ j i hj hi]
    · rw [testBit_uint8_high _ j (by omega), testBit_uint8_high _ j (by omega)]
  apply List.ext_getElem
  · simp [length_spec_transpose]
  · intro n h1 h2
    have hn : n < 8 := by simpa using h2
    have := key n hn
    rw [List.getD_eq_getElem _ _ h1, List.getD_eq_getElem _ _ h2] at this
    exact this

/-! ## `skytale` on a buffer position -/

theorem skytale_eq (l : List uint8_t) (h : 8 ≤ l.length) :
    skytale l = Except.ok (spec_transpose (l.take 8) ++ l.drop 8) := by
  obtain ⟨a0, a1, a2, a3, a4, a5, a6, a7, rest, rfl⟩ := exists_eq_cons8 l h
  rw [skytale_cons8]
  rfl

theorem skytale_at_eq (m : List uint8_t) (off : Nat) (h : off + 8 ≤ m.length) :
    skytale_at m (off : Int) = Except.ok (spec_transpose_at m off) := by
  unfold skytale_at
  have h1 : 0 ≤ (off : Int) ∧ (off : Int) ≤ (m.length : Int) := by omega
  rw [if_pos h1, Int.toNat_ofNat, skytale_eq _ (by rw [List.length_drop]; omega)]
  simp only [spec_transpose_at, List.drop_drop, List.append_assoc]

theorem length_spec_transpose_at (m : List uint8_t) (off : Nat) (h : off + 8 ≤ m.length) :
    (spec_transpose_at m off).length = m.length := by
  simp only [spec_transpose_at, List.length_append, List.length_take, List.length_drop,
    length_spec_transpose]
  omega

/-! ## The block loop and the tail step -/

theorem foldlM_eq_foldl (f : List uint8_t → Nat → Except Fault (List uint8_t))
    (g : List uint8_t → Nat → List uint8_t) (P : List uint8_t → Prop) (is : List Nat)
    (h : ∀ m i, i ∈ is → P m → f m i = Except.ok (g m i) ∧ P (g m i))
    (m : List uint8_t) (hm : P m) :
    is.foldlM f m = Except.ok (is.foldl g m) ∧ P (is.foldl g m) := by
  induction is generalizing m with
  | nil => exact ⟨rfl, hm⟩
  | cons i is ih =>
    obtain ⟨h1, h2⟩ := h m i (List.mem_cons_self _ _) hm
    have ih2 := ih (fun m j hj hP => h m j (List.mem_cons_of_mem _ hj) hP) (g m i) h2
    rw [List.foldlM_cons, h1, List.foldl_cons]
    exact ih2

theorem block_loop_eq_aux (m : List uint8_t) (n L : Nat) (hn : 8 * n ≤ L) (hm : m.length = L) :
    (List.range n).foldlM (fun (m : List uint8_t) (i : Nat) =>
        skytale_at m ((i : Int) * (BLOCKLEN : Int))) m
      = Except.ok ((List.range n).foldl (fun m b => spec_transpose_at m (8 * b)) m)
    ∧ ((List.range n).foldl (fun m b => spec_transpose_at m (8 * b)) m).length = L := by
  apply foldlM_eq_foldl _ _ (fun m => m.length = L) _ _ m hm
  intro m i hi hP
  have hi2 : i < n := List.mem_range.mp hi
  have hoff : 8 * i + 8 ≤ m.length := by omega
  have hc : (i : Int) * (BLOCKLEN : Int) = ((8 * i : Nat) : Int) := by
    simp [BLOCKLEN]
    omega
  rw [hc, skytale_at_eq _ _ hoff]
  exact ⟨rfl, (length_spec_transpose_at _ _ hoff).trans hP⟩

theorem tdiv_blocklen (L : Nat) : ((L : Int).tdiv (BLOCKLEN : Int)).toNat = L / 8 := by
  show ((L : Int).tdiv ((8 : Nat) : Int)).toNat = L / 8
  rw [← Int.ofNat_tdiv, Int.toNat_ofNat]

theorem block_loop_eq (m : List uint8_t) :
    block_loop m (m.length : Int) = Except.ok (spec_full_blocks m) := by
  unfold block_loop spec_full_blocks
  rw [tdiv_blocklen]
  exact (block_loop_eq_aux m (m.length / 8) m.length (by omega) rfl).1

theorem length_spec_full_blocks (m : List uint8_t) : (spec_full_blocks m).length = m.length :=
  (block_loop_eq_aux m (m.length / 8) m.length (by omega) rfl).2

theorem tmod_blocklen (L : Nat) : (L : Int).tmod (BLOCKLEN : Int) = ((L % 8 : Nat) : Int) := by
  show (L : Int).tmod ((8 : Nat) : Int) = ((L % 8 : Nat) : Int)
  rw [Int.ofNat_tmod]

theorem tail_step_eq (m : List uint8_t) (h : 8 ≤ m.length) :
    tail_step m (m.length : Int) = Except.ok (spec_tail m) := by
  unfold tail_step spec_tail
  rw [tmod_blocklen]
  by_cases hr : m.length % 8 = 0
  · rw [if_neg (by simp [hr]), if_pos hr]
  · have hc : (m.length : Int) - (BLOCKLEN : Int) = ((m.length - 8 : Nat) : Int) := by
      simp [BLOCKLEN]
      omega
    rw [if_pos (by exact_mod_cast hr), if_neg hr, hc, skytale_at_eq _ _ (by omega)]

theorem length_spec_tail (m : List uint8_t) (h : 8 ≤ m.length) :
    (spec_tail m).length = m.length := by
  unfold spec_tail
  split
  · rfl
  · exact length_spec_transpose_at _ _ (by omega)

theorem scramble_eq {PacketHeader : Type} (B : List uint8_t) (hdr : PacketHeader)
    (h : 8 ≤ B.length) :
    scramble 0 (some B) (B.length : Int) hdr = Except.ok (spec_scramble B) := by
  have hg : ¬ ((0 : Int) ≠ 0 ∨ (B.length : Int) < (BLOCKLEN : Int)) := by
    simp [BLOCKLEN]
    omega
  have hl := length_spec_full_blocks B
  have ht := tail_step_eq (spec_full_blocks B) (by omega)
  rw [hl] at ht
  simp only [scramble, if_neg hg, block_loop_eq]
  exact ht

theorem descramble_eq {PacketHeader : Type} (B : List uint8_t) (hdr : PacketHeader)
    (h : 8 ≤ B.length) :
    descramble 0 (some B) (B.length : Int) hdr = Except.ok (spec_descramble B) := by
  have hg : ¬ ((0 : Int) ≠ 0 ∨ (B.length : Int) < (BLOCKLEN : Int)) := by
    simp [BLOCKLEN]
    omega
  have hl := length_spec_tail B h
  have hb := block_loop_eq (spec_tail B)
  rw [hl] at hb
  simp only [descramble, if_neg hg, tail_step_eq B h]
  exact hb

/-! ## Algebra of the block pass and the tail transform -/

theorem spec_transpose_at_append (pre X post : List uint8_t) (hX : X.length = 8) :
    spec_transpose_at (pre ++ X ++ post) pre.length = pre ++ spec_transpose X ++ post := by
  unfold spec_transpose_at
  have h1 : (pre ++ X ++ post).take pre.length = pre := by
    rw [List.append_assoc, List.take_left]
  have h2 : (pre ++ X ++ post).drop pre.length = X ++ post := by
    rw [List.append_assoc, List.drop_left]
  have h3 : (pre ++ X ++ post).drop (pre.length + 8) = post := by
    rw [← List.drop_drop, h2, ← hX, List.drop_left]
  have h4 : (X ++ post).take 8 = X := by
    rw [← hX, List.take_left]
  rw [h1, h2, h3, h4]

theorem exists_split_at (m : List uint8_t) (off : Nat) (h : off + 8 ≤ m.length) :
    ∃ pre X post, m = pre ++ X ++ post ∧ pre.length = off ∧ X.length = 8 := by
  refine ⟨m.take off, (m.drop off).take 8, (m.drop off).drop 8, ?_, ?_, ?_⟩
  · rw [List.append_assoc, List.take_append_drop, List.take_append_drop]
  · rw [List.length_take]
    omega
  · rw [List.length_take, List.length_drop]
    omega

theorem spec_transpose_at_involutive (m : List uint8_t) (off : Nat) (h : off + 8 ≤ m.length) :
    spec_transpose_at (spec_transpose_at m off) off = m := by
  obtain ⟨pre, X, post, rfl, rfl, hX⟩ := exists_split_at m off h
  rw [spec_transpose_at_append _ _ _ hX,
    spec_transpose_at_append _ _ _ (length_spec_transpose X), spec_transpose_involutive X hX]

theorem spec_tail_involutive (m : List uint8_t) (h : 8 ≤ m.length) :
    spec_tail (spec_tail m) = m := by
  have hl := length_spec_tail m h
  by_cases hr : m.length % 8 = 0
  · have h1 : spec_tail m = m := by
      unfold spec_tail
      rw [if_pos hr]
    rw [h1, h1]
  · have h1 : spec_tail m = spec_transpose_at m (m.length - 8) := by
      unfold spec_tail
      rw [if_neg hr]
    have h2 : spec_tail (spec_tail m) = spec_transpose_at (spec_tail m) (m.length - 8) := by
      unfold spec_tail at hl ⊢
      rw [if_neg (by rw [hl]; exact hr), hl]
    rw [h2, h1, spec_transpose_at_involutive _ _ (by omega)]

theorem spec_transpose_at_shift (pre m : List uint8_t) (k : Nat) :
    spec_transpose_at (pre ++ m) (pre.length + k) = pre ++ spec_transpose_at m k := by
  unfold spec_transpose_at
  have h1 : (pre ++ m).take (pre.length + k) = pre ++ m.take k := List.take_append k
  have h2 : (pre ++ m).drop (pre.length + k) = m.drop k := List.drop_append k
  have h3 : (pre ++ m).drop (pre.length + k + 8) = m.drop (k + 8) := by
    rw [Nat.add_assoc]
    exact List.drop_append (k + 8)
  rw [h1, h2, h3]
  simp only [List.append_assoc]

theorem foldl_transpose_shift (pre : List uint8_t) (hp : pre.length = 8) (is : List Nat)
    (m : List uint8_t) :
    is.foldl (fun m b => spec_transpose_at m (8 * (b + 1))) (pre ++ m)
      = pre ++ is.foldl (fun m b => spec_transpose_at m (8 * b)) m := by
  induction is generalizing m with
  | nil => rfl
  | cons i is ih =>
    have h : 8 * (i + 1) = pre.length + 8 * i := by omega
    rw [List.foldl_cons, List.foldl_cons, h, spec_transpose_at_shift, ih]

theorem spec_full_blocks_short (m : List uint8_t) (h : m.length < 8) :
    spec_full_blocks m = m := by
  unfold spec_full_blocks
  have h0 : m.length / 8 = 0 := by omega
  rw [h0]
  rfl

theorem spec_full_blocks_append (X rest : List uint8_t) (hX : X.length = 8) :
    spec_full_blocks (X ++ rest) = spec_transpose X ++ spec_full_blocks rest := by
  unfold spec_full_blocks
  have hn : (X ++ rest).length / 8 = rest.length / 8 + 1 := by
    rw [List.length_append, hX]
    omega
  rw [hn, List.range_succ_eq_map, List.foldl_cons, List.foldl_map]
  have h0 := spec_transpose_at_append [] X rest hX
  simp only [List.nil_append, List.length_nil] at h0
  rw [Nat.mul_zero, h0]
  exact foldl_transpose_shift (spec_transpose X) (length_spec_transpose X) _ rest

theorem blocks_induction (P : List uint8_t → Prop) (h0 : ∀ m, m.length < 8 → P m)
    (hs : ∀ X rest, X.length = 8 → P rest → P (X ++ rest)) (m : List uint8_t) : P m := by
  have key : ∀ k (m : List uint8_t), m.length / 8 = k → P m := by
    intro k
    induction k with
    | zero =>
      intro m hm
      exact h0 m (by omega)
    | succ k ih =>
      intro m hm
      have hsplit : m = m.take 8 ++ m.drop 8 := (List.take_append_drop 8 m).symm
      rw [hsplit]
      apply hs
      · rw [List.length_take]
        omega
      · apply ih
        rw [List.length_drop]
        omega
  exact key _ m rfl

theorem spec_full_blocks_involutive (m : List uint8_t) :
    spec_full_blocks (spec_full_blocks m) = m := by
  induction m using blocks_induction with
  | h0 m hm => rw [spec_full_blocks_short m hm, spec_full_blocks_short m hm]
  | hs X rest hX ih =>
    rw [spec_full_blocks_append X rest hX,
      spec_full_blocks_append _ _ (length_spec_transpose X), spec_transpose_involutive X hX, ih]

theorem length_spec_scramble (B : List uint8_t) (h : 8 ≤ B.length) :
    (spec_scramble B).length = B.length := by
  unfold spec_scramble
  rw [length_spec_tail _ (by rw [length_spec_full_blocks]; exact h), length_spec_full_blocks]

theorem length_spec_descramble (B : List uint8_t) (h : 8 ≤ B.length) :
    (spec_descramble B).length = B.length := by
  unfold spec_descramble
  rw [length_spec_full_blocks, length_spec_tail _ h]

theorem spec_descramble_scramble (B : List uint8_t) (h : 8 ≤ B.length) :
    spec_descramble (spec_scramble B) = B := by
  unfold spec_descramble spec_scramble
  rw [spec_tail_involutive _ (by rw [length_spec_full_blocks]; exact h),
    spec_full_blocks_involutive]

theorem spec_scramble_descramble (B : List uint8_t) (h : 8 ≤ B.length) :
    spec_scramble (spec_descramble B) = B := by
  unfold spec_descramble spec_scramble
  rw [spec_full_blocks_involutive, spec_tail_involutive _ h]

theorem spec_full_blocks_append_aligned (pre m : List uint8_t) (hp : pre.length % 8 = 0) :
    spec_full_blocks (pre ++ m) = spec_full_blocks pre ++ spec_full_blocks m := by
  induction pre using blocks_induction with
  | h0 p hlt =>
    have h0 : p = [] := List.eq_nil_of_length_eq_zero (by omega)
    subst h0
    rfl
  | hs X rest hX ih =>
    have hrest : rest.length % 8 = 0 := by
      rw [List.length_append, hX] at hp
      omega
    rw [List.append_assoc, spec_full_blocks_append X _ hX, ih hrest,
      spec_full_blocks_append X rest hX, List.append_assoc]

theorem spec_tail_append_aligned (pre m : List uint8_t) (hp : pre.length % 8 = 0)
    (hm : 8 ≤ m.length) : spec_tail (pre ++ m) = pre ++ spec_tail m := by
  unfold spec_tail
  by_cases hr : m.length % 8 = 0
  · rw [if_pos hr, if_pos (by rw [List.length_append]; omega)]
  · have hk : (pre ++ m).length - 8 = pre.length + (m.length - 8) := by
      rw [List.length_append]
      omega
    rw [if_neg hr, if_neg (by rw [List.length_append]; omega), hk, spec_transpose_at_shift]

theorem spec_scramble_append_aligned (pre m : List uint8_t) (hp : pre.length % 8 = 0)
    (hm : 8 ≤ m.length) : spec_scramble (pre ++ m) = spec_full_blocks pre ++ spec_scramble m := by
  unfold spec_scramble
  rw [spec_full_blocks_append_aligned pre m hp,
    spec_tail_append_aligned _ _ (by rw [length_spec_full_blocks]; exact hp)
      (by rw [length_spec_full_blocks]; exact hm)]

theorem spec_scramble_twice_append (pre m : List uint8_t) (hp : pre.length % 8 = 0)
    (hm : 8 ≤ m.length) :
    spec_scramble (spec_scramble (pre ++ m)) = pre ++ spec_scramble (spec_scramble m) := by
  rw [spec_scramble_append_aligned pre m hp hm,
    spec_scramble_append_aligned _ _ (by rw [length_spec_full_blocks]; exact hp)
      (by rw [length_spec_scramble m hm]; exact hm),
    spec_full_blocks_involutive]

theorem spec_tail_aligned (m : List uint8_t) (h : m.length % 8 = 0) : spec_tail m = m := by
  unfold spec_tail
  rw [if_pos h]

theorem spec_scramble_twice_aligned (m : List uint8_t) (h : m.length % 8 = 0) :
    spec_scramble (spec_scramble m) = m := by
  have h1 : ∀ x : List uint8_t, x.length % 8 = 0 → spec_scramble x = spec_full_blocks x :=
    fun x hx => spec_tail_aligned _ (by rw [length_spec_full_blocks]; exact hx)
  rw [h1 m h, h1 _ (by rw [length_spec_full_blocks]; exact h), spec_full_blocks_involutive]

theorem spec_descramble_twice_aligned (m : List uint8_t) (h : m.length % 8 = 0) :
    spec_descramble (spec_descramble m) = m := by
  have h1 : ∀ x : List uint8_t, x.length % 8 = 0 → spec_descramble x = spec_full_blocks x :=
    fun x hx => by
      unfold spec_descramble
      rw [spec_tail_aligned x hx]
  rw [h1 m h, h1 _ (by rw [length_spec_full_blocks]; exact h), spec_full_blocks_involutive]

theorem scramble_short {PacketHeader : Type} (a : Int) (B : List uint8_t) (len : Int)
    (hdr : PacketHeader) (h : a ≠ 0 ∨ len < 8) : scramble a (some B) len hdr = Except.ok B := by
  have hg : a ≠ 0 ∨ len < (BLOCKLEN : Int) := h
  simp only [scramble, if_pos hg]

theorem descramble_short {PacketHeader : Type} (a : Int) (B : List uint8_t) (len : Int)
    (hdr : PacketHeader) (h : a ≠ 0 ∨ len < 8) : descramble a (some B) len hdr = Except.ok B := by
  have hg : a ≠ 0 ∨ len < (BLOCKLEN : Int) := h
  simp only [descramble, if_pos hg]

theorem scramble_present_ok {PacketHeader : Type} (a : Int) (B : List uint8_t)
    (hdr : PacketHeader) : ∃ S, scramble a (some B) (B.length : Int) hdr = Except.ok S := by
  by_cases h : a ≠ 0 ∨ (B.length : Int) < 8
  · exact ⟨B, scramble_short a B _ hdr h⟩
  · have ha : a = 0 := by
      by_contra hne
      exact h (Or.inl hne)
    subst ha
    exact ⟨_, scramble_eq B hdr (by omega)⟩

theorem descramble_present_ok {PacketHeader : Type} (a : Int) (B : List uint8_t)
    (hdr : PacketHeader) : ∃ S, descramble a (some B) (B.length : Int) hdr = Except.ok S := by
  by_cases h : a ≠ 0 ∨ (B.length : Int) < 8
  · exact ⟨B, descramble_short a B _ hdr h⟩
  · have ha : a = 0 := by
      by_contra hne
      exact h (Or.inl hne)
    subst ha
    exact ⟨_, descramble_eq B hdr (by omega)⟩

theorem skytale_block (X : List uint8_t) (h : X.length = 8) :
    skytale X = Except.ok (spec_transpose X) := by
  have h1 : X.take 8 = X := List.take_of_length_le (by omega)
  have h2 : X.drop 8 = [] := List.drop_of_length_le (by omega)
  rw [skytale_eq X (by omega), h1, h2, List.append_nil]

theorem pattern_not_restored (r : Nat) (h1 : 1 ≤ r) (h7 : r ≤ 7) :
    spec_scramble (spec_scramble ((List.range (8 + r)).map (fun i => toU8 (i + 1))))
      ≠ (List.range (8 + r)).map (fun i => toU8 (i + 1)) := by
  interval_cases r <;> decide

/-! ## The claims of the design document -/

/-- Claim C1 (round trip). With scrambling enabled (`arg_noscrambling = 0`), for every
buffer `B` of any length, `scramble` called on `B` with `len = |B|` returns a buffer `S`,
and `descramble` called on `S` with the same `len` returns exactly `B`. -/
theorem scramble_descramble_round_trip {PacketHeader : Type} (B : List uint8_t)
    (hdr hdr2 : PacketHeader) :
    ∃ S, scramble 0 (some B) (B.length : Int) hdr = Except.ok S ∧
      descramble 0 (some S) (B.length : Int) hdr2 = Except.ok B := by
  by_cases h : B.length < 8
  · have hg : (0 : Int) ≠ 0 ∨ (B.length : Int) < 8 := Or.inr (by omega)
    exact ⟨B, scramble_short 0 B _ hdr hg, descramble_short 0 B _ hdr2 hg⟩
  · have h8 : 8 ≤ B.length := by omega
    refine ⟨spec_scramble B, scramble_eq B hdr h8, ?_⟩
    have hd := descramble_eq (spec_scramble B) hdr2 (by rw [length_spec_scramble B h8]; exact h8)
    rw [length_spec_scramble B h8, spec_descramble_scramble B h8] at hd
    exact hd

/-- Claim C2 (block self-inverse). For every 8-byte block `X`, `skytale` returns a
block `Y`, and `skytale` applied to `Y` returns exactly `X`. -/
theorem skytale_twice (X : List uint8_t) (h : X.length = 8) :
    ∃ Y, skytale X = Except.ok Y ∧ skytale Y = Except.ok X := by
  refine ⟨spec_transpose X, skytale_block X h, ?_⟩
  rw [skytale_block _ (length_spec_transpose X), spec_transpose_involutive X h]

/-- Witness for claim C2 at the block `[0x80, 0, 0, 0, 0, 0, 0, 0]`. -/
theorem skytale_twice_witness :
    ([0x80, 0, 0, 0, 0, 0, 0, 0] : List uint8_t).length = 8 ∧
    ∃ Y, skytale [0x80, 0, 0, 0, 0, 0, 0, 0] = Except.ok Y ∧
      skytale Y = Except.ok [0x80, 0, 0, 0, 0, 0, 0, 0] :=
  ⟨rfl, skytale_twice [0x80, 0, 0, 0, 0, 0, 0, 0] rfl⟩

/-- Claim C3 (bit-matrix transpose). For every 8-byte block `X`, `skytale` returns an
8-byte block `Y` such that for all `i, j` in `0..7`, bit `j` of byte `i` of `Y` equals
bit `i` of byte `j` of `X`; and the block `[0x80,0,0,0,0,0,0,0]` is mapped to
`[0,0,0,0,0,0,0,0x01]`. -/
theorem skytale_is_bit_transpose (X : List uint8_t) (h : X.length = 8) :
    (∃ Y, skytale X = Except.ok Y ∧ Y.length = 8 ∧
      ∀ i j, i < 8 → j < 8 → (Y.getD i 0).val.testBit j = (X.getD j 0).val.testBit i) ∧
    skytale [0x80, 0, 0, 0, 0, 0, 0, 0] = Except.ok [0, 0, 0, 0, 0, 0, 0, 0x01] := by
  refine ⟨⟨spec_transpose X, skytale_block X h, length_spec_transpose X, ?_⟩, rfl⟩
  intro i j hi hj
  exact getD_spec_transpose_testBit X i j hi hj

/-- Witness for claim C3 at the block `[1, 2, 3, 4, 5, 6, 7, 8]`. -/
theorem skytale_is_bit_transpose_witness :
    ([1, 2, 3, 4, 5, 6, 7, 8] : List uint8_t).length = 8 ∧
    ((∃ Y, skytale [1, 2, 3, 4, 5, 6, 7, 8] = Except.ok Y ∧ Y.length = 8 ∧
      ∀ i j, i < 8 → j < 8 →
        (Y.getD i 0).val.testBit j
          = (([1, 2, 3, 4, 5, 6, 7, 8] : List uint8_t).getD j 0).val.testBit i) ∧
    skytale [0x80, 0, 0, 0, 0, 0, 0, 0] = Except.ok [0, 0, 0, 0, 0, 0, 0, 0x01]) :=
  ⟨rfl, skytale_is_bit_transpose [1, 2, 3, 4, 5, 6, 7, 8] rfl⟩

/-- Claim C4 (scramble step order). With scrambling enabled, for every buffer `B` of
length `L ≥ 8`, `scramble` returns the buffer obtained by first transposing the full
blocks `0, 1, ..., ⌊L/8⌋-1` in increasing order and then, exactly when `L` is not a
multiple of 8, transposing the final 8 bytes of that intermediate buffer. -/
theorem scramble_step_order {PacketHeader : Type} (B : List uint8_t) (hdr : PacketHeader)
    (h : 8 ≤ B.length) :
    scramble 0 (some B) (B.length : Int) hdr = Except.ok (spec_tail (spec_full_blocks B)) :=
  scramble_eq B hdr h

/-- Witness for claim C4 at an 11-byte buffer. -/
theorem scramble_step_order_witness :
    8 ≤ ([1, 2, 3, 4, 5, 6, 7, 8, 9, 10, 11] : List uint8_t).length ∧
    scramble 0 (some [1, 2, 3, 4, 5, 6, 7, 8, 9, 10, 11])
        (([1, 2, 3, 4, 5, 6, 7, 8, 9, 10, 11] : List uint8_t).length : Int) ()
      = Except.ok (spec_tail (spec_full_blocks [1, 2, 3, 4, 5, 6, 7, 8, 9, 10, 11])) :=
  ⟨by decide, scramble_step_order [1, 2, 3, 4, 5, 6, 7, 8, 9, 10, 11] () (by decide)⟩

/-- Claim C5 (descramble step order). With scrambling enabled, for every buffer `B` of
length `L ≥ 8`, `descramble` returns the buffer obtained by first (exactly when `L` is
not a multiple of 8) transposing the final 8 bytes and then transposing the full
blocks `0, 1, ..., ⌊L/8⌋-1` of that intermediate buffer in increasing order. -/
theorem descramble_step_order {PacketHeader : Type} (B : List uint8_t) (hdr : PacketHeader)
    (h : 8 ≤ B.length) :
    descramble 0 (some B) (B.length : Int) hdr = Except.ok (spec_full_blocks (spec_tail B)) :=
  descramble_eq B hdr h

/-- Witness for claim C5 at an 11-byte buffer. -/
theorem descramble_step_order_witness :
    8 ≤ ([1, 2, 3, 4, 5, 6, 7, 8, 9, 10, 11] : List uint8_t).length ∧
    descramble 0 (some [1, 2, 3, 4, 5, 6, 7, 8, 9, 10, 11])
        (([1, 2, 3, 4, 5, 6, 7, 8, 9, 10, 11] : List uint8_t).length : Int) ()
      = Except.ok (spec_full_blocks (spec_tail [1, 2, 3, 4, 5, 6, 7, 8, 9, 10, 11])) :=
  ⟨by decide, descramble_step_order [1, 2, 3, 4, 5, 6, 7, 8, 9, 10, 11] () (by decide)⟩

/-- Claim C6 (sub-threshold no-op). For every buffer `B`, every `len < 8` and every
value of `arg_noscrambling`, `scramble` and `descramble` return `B` unchanged. -/
theorem sub_threshold_noop {PacketHeader : Type} (a : Int) (B : List uint8_t) (len : Int)
    (hdr : PacketHeader) (h : len < 8) :
    scramble a (some B) len hdr = Except.ok B ∧ descramble a (some B) len hdr = Except.ok B :=
  ⟨scramble_short a B len hdr (Or.inr h), descramble_short a B len hdr (Or.inr h)⟩

/-- Witness for claim C6: a 7-byte buffer with scrambling enabled. -/
theorem sub_threshold_noop_witness :
    (7 : Int) < 8 ∧
    (scramble 0 (some [1, 2, 3, 4, 5, 6, 7]) 7 () = Except.ok [1, 2, 3, 4, 5, 6, 7] ∧
      descramble 0 (some [1, 2, 3, 4, 5, 6, 7]) 7 () = Except.ok [1, 2, 3, 4, 5, 6, 7]) :=
  ⟨by decide, sub_threshold_noop 0 [1, 2, 3, 4, 5, 6, 7] 7 () (by decide)⟩

/-- Claim C7 (disabled pass-through). When `arg_noscrambling` is nonzero, for every
buffer `B` and every `len`, `scramble` and `descramble` return `B` unchanged. -/
theorem disabled_pass_through {PacketHeader : Type} (a : Int) (B : List uint8_t) (len : Int)
    (hdr : PacketHeader) (h : a ≠ 0) :
    scramble a (some B) len hdr = Except.ok B ∧ descramble a (some B) len hdr = Except.ok B :=
  ⟨scramble_short a B len hdr (Or.inl h), descramble_short a B len hdr (Or.inl h)⟩

/-- Witness for claim C7: an 11-byte buffer with `arg_noscrambling = 1`. -/
theorem disabled_pass_through_witness :
    (1 : Int) ≠ 0 ∧
    (scramble 1 (some [1, 2, 3, 4, 5, 6, 7, 8, 9, 10, 11]) 11 ()
        = Except.ok [1, 2, 3, 4, 5, 6, 7, 8, 9, 10, 11] ∧
      descramble 1 (some [1, 2, 3, 4, 5, 6, 7, 8, 9, 10, 11]) 11 ()
        = Except.ok [1, 2, 3, 4, 5, 6, 7, 8, 9, 10, 11]) :=
  ⟨by decide, disabled_pass_through 1 [1, 2, 3, 4, 5, 6, 7, 8, 9, 10, 11] 11 () (by decide)⟩

/-- Claim C8, counterexample. A call with a null buffer and `len = 0` is not a no-op:
the `assert(ptr)` at the top of `scramble` and of `descramble` fails.  So failure is not
equivalent to "the buffer is null and the length is nonzero". -/
theorem null_buffer_zero_length_fails :
    scramble 0 none 0 () = Except.error Fault.assertFailed ∧
    descramble 0 none 0 () = Except.error Fault.assertFailed ∧
    ¬ ((∃ e, scramble 0 (none : Option (List uint8_t)) 0 () = Except.error e) ↔
        ((none : Option (List uint8_t)) = none ∧ (0 : Int) ≠ 0)) := by
  refine ⟨rfl, rfl, ?_⟩
  intro hiff
  exact (hiff.mp ⟨Fault.assertFailed, rfl⟩).2 rfl

/-- Claim C8, amended. For every toggle value, `scramble` and `descramble` fail if and
only if the buffer pointer is null, whatever the length; in particular a call whose
buffer is present and holds exactly `len` bytes never fails. -/
theorem fails_iff_null_buffer {PacketHeader : Type} (a : Int) (ptr : Option (List uint8_t))
    (len : Int) (hdr : PacketHeader) (hlen : ∀ B, ptr = some B → len = (B.length : Int)) :
    ((∃ e, scramble a ptr len hdr = Except.error e) ↔ ptr = none) ∧
    ((∃ e, descramble a ptr len hdr = Except.error e) ↔ ptr = none) := by
  cases ptr with
  | none =>
    exact ⟨⟨fun _ => rfl, fun _ => ⟨Fault.assertFailed, rfl⟩⟩,
      ⟨fun _ => rfl, fun _ => ⟨Fault.assertFailed, rfl⟩⟩⟩
  | some B =>
    have hl := hlen B rfl
    subst hl
    obtain ⟨S, hS⟩ := scramble_present_ok a B hdr
    obtain ⟨D, hD⟩ := descramble_present_ok a B hdr
    constructor
    · constructor
      · rintro ⟨e, he⟩
        rw [hS] at he
        cases he
      · intro hnone
        cases hnone
    · constructor
      · rintro ⟨e, he⟩
        rw [hD] at he
        cases he
      · intro hnone
        cases hnone

/-- Witness for the amended claim C8: a present 9-byte buffer with `len = 9`. -/
theorem fails_iff_null_buffer_witness :
    (∀ B, (some [1, 2, 3, 4, 5, 6, 7, 8, 9] : Option (List uint8_t)) = some B →
      (9 : Int) = (B.length : Int)) ∧
    (((∃ e, scramble 0 (some [1, 2, 3, 4, 5, 6, 7, 8, 9]) 9 () = Except.error e) ↔
        (some [1, 2, 3, 4, 5, 6, 7, 8, 9] : Option (List uint8_t)) = none) ∧
     ((∃ e, descramble 0 (some [1, 2, 3, 4, 5, 6, 7, 8, 9]) 9 () = Except.error e) ↔
        (some [1, 2, 3, 4, 5, 6, 7, 8, 9] : Option (List uint8_t)) = none)) :=
  have h : ∀ B, (some [1, 2, 3, 4, 5, 6, 7, 8, 9] : Option (List uint8_t)) = some B →
      (9 : Int) = (B.length : Int) := by
    intro B hB
    cases hB
    rfl
  ⟨h, fails_iff_null_buffer 0 (some [1, 2, 3, 4, 5, 6, 7, 8, 9]) 9 () h⟩

/-- Claim C9, counterexample. With scrambling enabled, scrambling the 9-byte buffer
`[1,...,9]` twice gives `[205,42,64,128,0,65,1,1,1]`, and descrambling it twice gives
`[13,16,21,24,28,32,36,0,0]`; neither is the original buffer. -/
theorem scramble_twice_not_identity :
    scramble 0 (some [1, 2, 3, 4, 5, 6, 7, 8, 9]) 9 ()
      = Except.ok [85, 128, 1, 1, 130, 2, 3, 3, 4] ∧
    scramble 0 (some [85, 128, 1, 1, 130, 2, 3, 3, 4]) 9 ()
      = Except.ok [205, 42, 64, 128, 0, 65, 1, 1, 1] ∧
    ([205, 42, 64, 128, 0, 65, 1, 1, 1] : List uint8_t) ≠ [1, 2, 3, 4, 5, 6, 7, 8, 9] ∧
    descramble 0 (some [1, 2, 3, 4, 5, 6, 7, 8, 9]) 9 ()
      = Except.ok [5, 6, 8, 10, 12, 14, 16, 18, 0] ∧
    descramble 0 (some [5, 6, 8, 10, 12, 14, 16, 18, 0]) 9 ()
      = Except.ok [13, 16, 21, 24, 28, 32, 36, 0, 0] ∧
    ([13, 16, 21, 24, 28, 32, 36, 0, 0] : List uint8_t) ≠ [1, 2, 3, 4, 5, 6, 7, 8, 9] :=
  ⟨rfl, rfl, by decide, rfl, rfl, by decide⟩

/-- Claim C9, amended. With scrambling enabled, for every buffer `B` whose length is a
multiple of 8 or smaller than 8, applying `scramble` twice gives back `B`, and applying
`descramble` twice gives back `B`. -/
theorem twice_is_identity_aligned {PacketHeader : Type} (B : List uint8_t)
    (hdr hdr2 : PacketHeader) (h : B.length % 8 = 0 ∨ B.length < 8) :
    (∃ S, scramble 0 (some B) (B.length : Int) hdr = Except.ok S ∧
      scramble 0 (some S) (B.length : Int) hdr2 = Except.ok B) ∧
    (∃ S, descramble 0 (some B) (B.length : Int) hdr = Except.ok S ∧
      descramble 0 (some S) (B.length : Int) hdr2 = Except.ok B) := by
  by_cases hlt : B.length < 8
  · have hg : (0 : Int) ≠ 0 ∨ (B.length : Int) < 8 := Or.inr (by omega)
    exact ⟨⟨B, scramble_short 0 B _ hdr hg, scramble_short 0 B _ hdr2 hg⟩,
      ⟨B, descramble_short 0 B _ hdr hg, descramble_short 0 B _ hdr2 hg⟩⟩
  · have h8 : 8 ≤ B.length := by omega
    have hr : B.length % 8 = 0 := by
      rcases h with h | h
      · exact h
      · exact absurd h hlt
    constructor
    · refine ⟨spec_scramble B, scramble_eq B hdr h8, ?_⟩
      have h2 := scramble_eq (spec_scramble B) hdr2 (by rw [length_spec_scramble B h8]; exact h8)
      rw [length_spec_scramble B h8, spec_scramble_twice_aligned B hr] at h2
      exact h2
    · refine ⟨spec_descramble B, descramble_eq B hdr h8, ?_⟩
      have h2 := descramble_eq (spec_descramble B) hdr2
        (by rw [length_spec_descramble B h8]; exact h8)
      rw [length_spec_descramble B h8, spec_descramble_twice_aligned B hr] at h2
      exact h2

/-- Witness for the amended claim C9: a 16-byte buffer. -/
theorem twice_is_identity_aligned_witness :
    (([1, 2, 3, 4, 5, 6, 7, 8, 9, 10, 11, 12, 13, 14, 15, 16] : List uint8_t).length % 8 = 0 ∨
      ([1, 2, 3, 4, 5, 6, 7, 8, 9, 10, 11, 12, 13, 14, 15, 16] : List uint8_t).length < 8) ∧
    ((∃ S, scramble 0 (some [1, 2, 3, 4, 5, 6, 7, 8, 9, 10, 11, 12, 13, 14, 15, 16])
          (([1, 2, 3, 4, 5, 6, 7, 8, 9, 10, 11, 12, 13, 14, 15, 16] : List uint8_t).length : Int)
          () = Except.ok S ∧
        scramble 0 (some S)
          (([1, 2, 3, 4, 5, 6, 7, 8, 9, 10, 11, 12, 13, 14, 15, 16] : List uint8_t).length : Int)
          () = Except.ok [1, 2, 3, 4, 5, 6, 7, 8, 9, 10, 11, 12, 13, 14, 15, 16]) ∧
     (∃ S, descramble 0 (some [1, 2, 3, 4, 5, 6, 7, 8, 9, 10, 11, 12, 13, 14, 15, 16])
          (([1, 2, 3, 4, 5, 6, 7, 8, 9, 10, 11, 12, 13, 14, 15, 16] : List uint8_t).length : Int)
          () = Except.ok S ∧
        descramble 0 (some S)
          (([1, 2, 3, 4, 5, 6, 7, 8, 9, 10, 11, 12, 13, 14, 15, 16] : List uint8_t).length : Int)
          () = Except.ok [1, 2, 3, 4, 5, 6, 7, 8, 9, 10, 11, 12, 13, 14, 15, 16])) :=
  ⟨Or.inl (by decide),
    twice_is_identity_aligned [1, 2, 3, 4, 5, 6, 7, 8, 9, 10, 11, 12, 13, 14, 15, 16] () ()
      (Or.inl (by decide))⟩

/-- Claim C10 (the reversed step order is needed at every non-aligned length). With
scrambling enabled, for every length `L ≥ 8` that is not a multiple of 8 there is a
buffer `B` of length `L` such that `scramble` applied to `scramble(B, L)` returns a
buffer different from `B`. -/
theorem wrong_order_does_not_invert {PacketHeader : Type} (L : Nat) (hdr hdr2 : PacketHeader)
    (h8 : 8 ≤ L) (hr : L % 8 ≠ 0) :
    ∃ B : List uint8_t, B.length = L ∧
      ∃ S T, scramble 0 (some B) (L : Int) hdr = Except.ok S ∧
        scramble 0 (some S) (L : Int) hdr2 = Except.ok T ∧ T ≠ B := by
  have hr7 : L % 8 ≤ 7 := by omega
  have hr1 : 1 ≤ L % 8 := by omega
  let pre : List uint8_t := List.replicate (8 * (L / 8 - 1)) 0
  let pat : List uint8_t := (List.range (8 + L % 8)).map (fun i => toU8 (i + 1))
  have hpre : pre.length = 8 * (L / 8 - 1) := List.length_replicate _ _
  have hpat : pat.length = 8 + L % 8 := by
    simp only [pat, List.length_map, List.length_range]
  have hlen : (pre ++ pat).length = L := by
    rw [List.length_append, hpre, hpat]
    omega
  have hp8 : pre.length % 8 = 0 := by
    rw [hpre]
    omega
  have hm8 : 8 ≤ pat.length := by
    rw [hpat]
    omega
  have e1 := scramble_eq (pre ++ pat) hdr (by rw [hlen]; exact h8)
  have hlen2 : (spec_scramble (pre ++ pat)).length = L := by
    rw [length_spec_scramble _ (by rw [hlen]; exact h8), hlen]
  have e2 := scramble_eq (spec_scramble (pre ++ pat)) hdr2 (by rw [hlen2]; exact h8)
  rw [hlen] at e1
  rw [hlen2] at e2
  refine ⟨pre ++ pat, hlen, _, _, e1, e2, ?_⟩
  rw [spec_scramble_twice_append pre pat hp8 hm8]
  intro heq
  exact pattern_not_restored (L % 8) hr1 hr7 (List.append_cancel_left heq)

/-- Witness for claim C10 at `L = 11`. -/
theorem wrong_order_does_not_invert_witness :
    8 ≤ 11 ∧ 11 % 8 ≠ 0 ∧
    ∃ B : List uint8_t, B.length = 11 ∧
      ∃ S T, scramble 0 (some B) ((11 : Nat) : Int) () = Except.ok S ∧
        scramble 0 (some S) ((11 : Nat) : Int) () = Except.ok T ∧ T ≠ B :=
  ⟨by decide, by decide, wrong_order_does_not_invert 11 () () (by decide) (by decide)⟩

/-! ## Further consequences of the refinement -/

theorem scramble_total {PacketHeader : Type} (a : Int) (B : List uint8_t) (hdr : PacketHeader) :
    ∃ S, scramble a (some B) (B.length : Int) hdr = Except.ok S ∧ S.length = B.length ∧
      ((a ≠ 0 ∨ B.length < 8) → S = B) ∧ ((a = 0 ∧ 8 ≤ B.length) → S = spec_scramble B) := by
  by_cases h : a ≠ 0 ∨ (B.length : Int) < 8
  · refine ⟨B, scramble_short a B _ hdr h, rfl, fun _ => rfl, ?_⟩
    rintro ⟨ha, h8⟩
    rcases h with h | h
    · exact absurd ha h
    · omega
  · have ha : a = 0 := by
      by_contra hne
      exact h (Or.inl hne)
    have h8 : 8 ≤ B.length := by
      by_contra hlt
      exact h (Or.inr (by omega))
    subst ha
    refine ⟨_, scramble_eq B hdr h8, length_spec_scramble B h8, ?_, fun _ => rfl⟩
    rintro (h0 | hlt)
    · exact absurd rfl h0
    · omega

theorem descramble_total {PacketHeader : Type} (a : Int) (B : List uint8_t)
    (hdr : PacketHeader) :
    ∃ S, descramble a (some B) (B.length : Int) hdr = Except.ok S ∧ S.length = B.length ∧
      ((a ≠ 0 ∨ B.length < 8) → S = B) ∧ ((a = 0 ∧ 8 ≤ B.length) → S = spec_descramble B) := by
  by_cases h : a ≠ 0 ∨ (B.length : Int) < 8
  · refine ⟨B, descramble_short a B _ hdr h, rfl, fun _ => rfl, ?_⟩
    rintro ⟨ha, h8⟩
    rcases h with h | h
    · exact absurd ha h
    · omega
  · have ha : a = 0 := by
      by_contra hne
      exact h (Or.inl hne)
    have h8 : 8 ≤ B.length := by
      by_contra hlt
      exact h (Or.inr (by omega))
    subst ha
    refine ⟨_, descramble_eq B hdr h8, length_spec_descramble B h8, ?_, fun _ => rfl⟩
    rintro (h0 | hlt)
    · exact absurd rfl h0
    · omega

theorem spec_scramble_aligned (m : List uint8_t) (h : m.length % 8 = 0) :
    spec_scramble m = spec_full_blocks m :=
  spec_tail_aligned _ (by rw [length_spec_full_blocks]; exact h)

theorem spec_descramble_aligned (m : List uint8_t) (h : m.length % 8 = 0) :
    spec_descramble m = spec_full_blocks m := by
  unfold spec_descramble
  rw [spec_tail_aligned m h]

theorem skytale_ok_length (l r : List uint8_t) (h : skytale l = Except.ok r) :
    8 ≤ l.length ∧ r.length = l.length := by
  by_cases h8 : 8 ≤ l.length
  · rw [skytale_eq l h8] at h
    cases h
    refine ⟨h8, ?_⟩
    rw [List.length_append, length_spec_transpose, List.length_drop]
    omega
  · exfalso
    unfold skytale at h
    cases ho : skytale_outer l with
    | error e =>
      rw [ho] at h
      cases h
    | ok st =>
      rw [ho] at h
      have hm : memcpy l st.1 BLOCKLEN = Except.error Fault.outOfBounds := by
        have h8b : ¬ BLOCKLEN ≤ l.length := h8
        unfold memcpy
        rw [if_neg h8b]
      simp only at h
      rw [hm] at h
      cases h

theorem skytale_at_ok_length (m r : List uint8_t) (off : Int)
    (h : skytale_at m off = Except.ok r) : r.length = m.length := by
  unfold skytale_at at h
  by_cases hb : 0 ≤ off ∧ off ≤ (m.length : Int)
  · rw [if_pos hb] at h
    cases hs : skytale (m.drop off.toNat) with
    | error e =>
      rw [hs] at h
      cases h
    | ok v =>
      rw [hs] at h
      cases h
      have hv := (skytale_ok_length _ _ hs).2
      rw [List.length_append, hv, List.length_take, List.length_drop]
      omega
  · rw [if_neg hb] at h
    cases h

theorem foldlM_ok_invariant (f : List uint8_t → Nat → Except Fault (List uint8_t))
    (P : List uint8_t → Prop) (hf : ∀ m i r, f m i = Except.ok r → P m → P r)
    (is : List Nat) (m r : List uint8_t) (h : is.foldlM f m = Except.ok r) (hm : P m) : P r := by
  induction is generalizing m with
  | nil =>
    cases h
    exact hm
  | cons i is ih =>
    rw [List.foldlM_cons] at h
    cases hi : f m i with
    | error e =>
      rw [hi] at h
      cases h
    | ok v =>
      rw [hi] at h
      exact ih v h (hf m i v hi hm)

theorem block_loop_ok_length (m r : List uint8_t) (len : Int)
    (h : block_loop m len = Except.ok r) : r.length = m.length := by
  unfold block_loop at h
  exact foldlM_ok_invariant _ (fun x => x.length = m.length)
    (fun x i y hxy hx => (skytale_at_ok_length x y _ hxy).trans hx) _ m r h rfl

theorem tail_step_ok_length (m r : List uint8_t) (len : Int)
    (h : tail_step m len = Except.ok r) : r.length = m.length := by
  unfold tail_step at h
  split at h
  · exact skytale_at_ok_length m r _ h
  · cases h
    rfl

theorem scramble_ok_length {PacketHeader : Type} (a : Int) (B S : List uint8_t) (len : Int)
    (hdr : PacketHeader) (h : scramble a (some B) len hdr = Except.ok S) :
    S.length = B.length := by
  simp only [scramble] at h
  split at h
  · cases h
    rfl
  · cases hb : block_loop B len with
    | error e =>
      rw [hb] at h
      cases h
    | ok m =>
      rw [hb] at h
      exact (tail_step_ok_length m S len h).trans (block_loop_ok_length B m len hb)

theorem descramble_ok_length {PacketHeader : Type} (a : Int) (B S : List uint8_t) (len : Int)
    (hdr : PacketHeader) (h : descramble a (some B) len hdr = Except.ok S) :
    S.length = B.length := by
  simp only [descramble] at h
  split at h
  · cases h
    rfl
  · cases hb : tail_step B len with
    | error e =>
      rw [hb] at h
      cases h
    | ok m =>
      rw [hb] at h
      exact (block_loop_ok_length m S len h).trans (tail_step_ok_length B m len hb)

/-- Claim C12 (aligned lengths). With scrambling enabled, for every buffer `B` whose
length is a multiple of 8, `scramble` and `descramble` both return, and return the same
buffer. -/
theorem scramble_eq_descramble_aligned {PacketHeader : Type} (B : List uint8_t)
    (hdr hdr2 : PacketHeader) (h : B.length % 8 = 0) :
    ∃ S, scramble 0 (some B) (B.length : Int) hdr = Except.ok S ∧
      descramble 0 (some B) (B.length : Int) hdr2 = Except.ok S := by
  by_cases h8 : 8 ≤ B.length
  · refine ⟨spec_full_blocks B, ?_, ?_⟩
    · rw [scramble_eq B hdr h8, spec_scramble_aligned B h]
    · rw [descramble_eq B hdr2 h8, spec_descramble_aligned B h]
  · have hg : (0 : Int) ≠ 0 ∨ (B.length : Int) < 8 := Or.inr (by omega)
    exact ⟨B, scramble_short 0 B _ hdr hg, descramble_short 0 B _ hdr2 hg⟩

/-- Witness for claim C12: a 16-byte buffer. -/
theorem scramble_eq_descramble_aligned_witness :
    ([1, 2, 3, 4, 5, 6, 7, 8, 9, 10, 11, 12, 13, 14, 15, 16] : List uint8_t).length % 8 = 0 ∧
    ∃ S, scramble 0 (some [1, 2, 3, 4, 5, 6, 7, 8, 9, 10, 11, 12, 13, 14, 15, 16])
          (([1, 2, 3, 4, 5, 6, 7, 8, 9, 10, 11, 12, 13, 14, 15, 16] : List uint8_t).length : Int)
          () = Except.ok S ∧
      descramble 0 (some [1, 2, 3, 4, 5, 6, 7, 8, 9, 10, 11, 12, 13, 14, 15, 16])
          (([1, 2, 3, 4, 5, 6, 7, 8, 9, 10, 11, 12, 13, 14, 15, 16] : List uint8_t).length : Int)
          () = Except.ok S :=
  ⟨by decide,
    scramble_eq_descramble_aligned [1, 2, 3, 4, 5, 6, 7, 8, 9, 10, 11, 12, 13, 14, 15, 16] () ()
      (by decide)⟩

/-- Claim C13 (length invariance). For every buffer `B` and every toggle value,
`scramble` and `descramble` called with `len = |B|` return a buffer with exactly as
many bytes as `B`; whenever a call with any `len` returns, the returned buffer has
exactly as many bytes as `B`; and `skytale` on an 8-byte block returns exactly 8
bytes. -/
theorem length_invariance {PacketHeader : Type} (a : Int) (B : List uint8_t)
    (hdr : PacketHeader) :
    (∃ S, scramble a (some B) (B.length : Int) hdr = Except.ok S ∧ S.length = B.length) ∧
    (∃ D, descramble a (some B) (B.length : Int) hdr = Except.ok D ∧ D.length = B.length) ∧
    (∀ (len : Int) (S : List uint8_t),
      scramble a (some B) len hdr = Except.ok S → S.length = B.length) ∧
    (∀ (len : Int) (D : List uint8_t),
      descramble a (some B) len hdr = Except.ok D → D.length = B.length) ∧
    (∀ X : List uint8_t, X.length = 8 → ∃ Y, skytale X = Except.ok Y ∧ Y.length = 8) := by
  obtain ⟨S, hS, hSl, _⟩ := scramble_total a B hdr
  obtain ⟨D, hD, hDl, _⟩ := descramble_total a B hdr
  refine ⟨⟨S, hS, hSl⟩, ⟨D, hD, hDl⟩, ?_, ?_, ?_⟩
  · intro len S2 h
    exact scramble_ok_length a B S2 len hdr h
  · intro len D2 h
    exact descramble_ok_length a B D2 len hdr h
  · intro X hX
    exact ⟨spec_transpose X, skytale_block X hX, length_spec_transpose X⟩

/-- Claim C17 (reverse round trip). With scrambling enabled, for every buffer `B` of
any length, `descramble` called on `B` with `len = |B|` returns a buffer `D`, and
`scramble` called on `D` with the same `len` returns exactly `B`. -/
theorem descramble_scramble_round_trip {PacketHeader : Type} (B : List uint8_t)
    (hdr hdr2 : PacketHeader) :
    ∃ D, descramble 0 (some B) (B.length : Int) hdr = Except.ok D ∧
      scramble 0 (some D) (B.length : Int) hdr2 = Except.ok B := by
  by_cases h : B.length < 8
  · have hg : (0 : Int) ≠ 0 ∨ (B.length : Int) < 8 := Or.inr (by omega)
    exact ⟨B, descramble_short 0 B _ hdr hg, scramble_short 0 B _ hdr2 hg⟩
  · have h8 : 8 ≤ B.length := by omega
    refine ⟨spec_descramble B, descramble_eq B hdr h8, ?_⟩
    have hs := scramble_eq (spec_descramble B) hdr2
      (by rw [length_spec_descramble B h8]; exact h8)
    rw [length_spec_descramble B h8, spec_scramble_descramble B h8] at hs
    exact hs

theorem bounds_check_is_live :
    scramble 0 (some [1, 2, 3, 4, 5, 6, 7, 8, 9, 10, 11]) 12 ()
      = Except.error Fault.outOfBounds ∧
    descramble 0 (some [1, 2, 3, 4, 5, 6, 7, 8, 9, 10, 11]) 12 ()
      = Except.error Fault.outOfBounds ∧
    skytale [1, 2, 3, 4, 5, 6, 7] = Except.error Fault.outOfBounds :=
  ⟨rfl, rfl, rfl⟩

/-- Claim C16 (in-bounds access). For every present buffer `B` called with `len = |B|`
and every toggle value, the bounds-checked `scramble` and `descramble` return a buffer
(no fault).  Every block start `i * 8` with `i < |B| / 8` satisfies `i * 8 + 7 < |B|`
and the tail start satisfies `0 ≤ |B| - 8` when `8 ≤ |B|`; the `skytale` calls at these
positions succeed on every buffer of `|B|` bytes. -/
theorem accesses_in_bounds {PacketHeader : Type} (a : Int) (B : List uint8_t)
    (hdr : PacketHeader) :
    (∃ S, scramble a (some B) (B.length : Int) hdr = Except.ok S) ∧
    (∃ D, descramble a (some B) (B.length : Int) hdr = Except.ok D) ∧
    (∀ i : Nat, i < B.length / 8 →
      0 ≤ (i : Int) * (BLOCKLEN : Int) ∧ (i : Int) * (BLOCKLEN : Int) + 7 < (B.length : Int) ∧
      ∀ m : List uint8_t, m.length = B.length →
        ∃ r, skytale_at m ((i : Int) * (BLOCKLEN : Int)) = Except.ok r) ∧
    (8 ≤ B.length →
      0 ≤ (B.length : Int) - (BLOCKLEN : Int) ∧
      (B.length : Int) - (BLOCKLEN : Int) + 7 < (B.length : Int) ∧
      ∀ m : List uint8_t, m.length = B.length →
        ∃ r, skytale_at m ((B.length : Int) - (BLOCKLEN : Int)) = Except.ok r) := by
  obtain ⟨S, hS, _⟩ := scramble_total a B hdr
  obtain ⟨D, hD, _⟩ := descramble_total a B hdr
  have hB : ((BLOCKLEN : Nat) : Int) = 8 := rfl
  refine ⟨⟨S, hS⟩, ⟨D, hD⟩, ?_, ?_⟩
  · intro i hi
    refine ⟨by rw [hB]; omega, by rw [hB]; omega, ?_⟩
    intro m hm
    have hc : (i : Int) * (BLOCKLEN : Int) = ((8 * i : Nat) : Int) := by
      rw [hB]
      omega
    rw [hc]
    exact ⟨_, skytale_at_eq m (8 * i) (by omega)⟩
  · intro h8
    refine ⟨by rw [hB]; omega, by rw [hB]; omega, ?_⟩
    intro m hm
    have hc : (B.length : Int) - (BLOCKLEN : Int) = ((B.length - 8 : Nat) : Int) := by
      rw [hB]
      omega
    rw [hc]
    exact ⟨_, skytale_at_eq m (B.length - 8) (by omega)⟩

/-! ## Constant buffers -/

theorem spec_transpose_at_replicate (c : uint8_t)
    (hc : spec_transpose (List.replicate 8 c) = List.replicate 8 c) (L off : Nat)
    (h : off + 8 ≤ L) :
    spec_transpose_at (List.replicate L c) off = List.replicate L c := by
  have hL : L = off + (8 + (L - off - 8)) := by omega
  have h1 : (List.replicate L c).take off = List.replicate off c := by
    rw [List.take_replicate, Nat.min_eq_left (by omega)]
  have h2 : ((List.replicate L c).drop off).take 8 = List.replicate 8 c := by
    rw [List.drop_replicate, List.take_replicate, Nat.min_eq_left (by omega)]
  have h3 : (List.replicate L c).drop (off + 8) = List.replicate (L - off - 8) c := by
    rw [List.drop_replicate, Nat.sub_sub]
  unfold spec_transpose_at
  rw [h1, h2, h3, hc, List.append_assoc, List.append_replicate_replicate,
    List.append_replicate_replicate, ← hL]

theorem foldl_fixed (g : List uint8_t → Nat → List uint8_t) (m : List uint8_t) (is : List Nat)
    (h : ∀ i, i ∈ is → g m i = m) : is.foldl g m = m := by
  induction is with
  | nil => rfl
  | cons i is ih =>
    rw [List.foldl_cons, h i (List.mem_cons_self _ _)]
    exact ih (fun k hk => h k (List.mem_cons_of_mem _ hk))

theorem spec_full_blocks_replicate (c : uint8_t)
    (hc : spec_transpose (List.replicate 8 c) = List.replicate 8 c) (L : Nat) :
    spec_full_blocks (List.replicate L c) = List.replicate L c := by
  unfold spec_full_blocks
  apply foldl_fixed
  intro i hi
  have hi2 := List.mem_range.mp hi
  rw [List.length_replicate] at hi2
  exact spec_transpose_at_replicate c hc L (8 * i) (by omega)

theorem spec_tail_replicate (c : uint8_t)
    (hc : spec_transpose (List.replicate 8 c) = List.replicate 8 c) (L : Nat) (h : 8 ≤ L) :
    spec_tail (List.replicate L c) = List.replicate L c := by
  unfold spec_tail
  split
  · rfl
  · rw [List.length_replicate]
    exact spec_transpose_at_replicate c hc L (L - 8) (by omega)

theorem scramble_replicate {PacketHeader : Type} (c : uint8_t)
    (hc : spec_transpose (List.replicate 8 c) = List.replicate 8 c) (a : Int) (L : Nat)
    (hdr : PacketHeader) :
    scramble a (some (List.replicate L c)) (L : Int) hdr = Except.ok (List.replicate L c) := by
  obtain ⟨S, hS, _, h1, h2⟩ := scramble_total a (List.replicate L c) hdr
  rw [List.length_replicate] at hS h1 h2
  rw [hS]
  by_cases h : a ≠ 0 ∨ L < 8
  · rw [h1 h]
  · have ha : a = 0 := by
      by_contra hne
      exact h (Or.inl hne)
    have h8 : 8 ≤ L := by
      by_contra hlt
      exact h (Or.inr (by omega))
    rw [h2 ⟨ha, h8⟩]
    unfold spec_scramble
    rw [spec_full_blocks_replicate c hc, spec_tail_replicate c hc L h8]

theorem descramble_replicate {PacketHeader : Type} (c : uint8_t)
    (hc : spec_transpose (List.replicate 8 c) = List.replicate 8 c) (a : Int) (L : Nat)
    (hdr : PacketHeader) :
    descramble a (some (List.replicate L c)) (L : Int) hdr = Except.ok (List.replicate L c) := by
  obtain ⟨S, hS, _, h1, h2⟩ := descramble_total a (List.replicate L c) hdr
  rw [List.length_replicate] at hS h1 h2
  rw [hS]
  by_cases h : a ≠ 0 ∨ L < 8
  · rw [h1 h]
  · have ha : a = 0 := by
      by_contra hne
      exact h (Or.inl hne)
    have h8 : 8 ≤ L := by
      by_contra hlt
      exact h (Or.inr (by omega))
    rw [h2 ⟨ha, h8⟩]
    unfold spec_descramble
    rw [spec_tail_replicate c hc L h8, spec_full_blocks_replicate c hc]

theorem spec_transpose_zeros : spec_transpose (List.replicate 8 (0x00 : uint8_t))
    = List.replicate 8 (0x00 : uint8_t) := by
  decide

theorem spec_transpose_ones : spec_transpose (List.replicate 8 (0xFF : uint8_t))
    = List.replicate 8 (0xFF : uint8_t) := by
  decide

/-- Claim C19 (constant buffers are fixed points). For every length `L` and every
toggle value, the buffer of `L` bytes `0x00` and the buffer of `L` bytes `0xFF` are
each returned unchanged by `scramble` and by `descramble`. -/
theorem constant_buffers_fixed {PacketHeader : Type} (a : Int) (L : Nat) (hdr : PacketHeader) :
    scramble a (some (List.replicate L (0x00 : uint8_t))) (L : Int) hdr
      = Except.ok (List.replicate L (0x00 : uint8_t)) ∧
    descramble a (some (List.replicate L (0x00 : uint8_t))) (L : Int) hdr
      = Except.ok (List.replicate L (0x00 : uint8_t)) ∧
    scramble a (some (List.replicate L (0xFF : uint8_t))) (L : Int) hdr
      = Except.ok (List.replicate L (0xFF : uint8_t)) ∧
    descramble a (some (List.replicate L (0xFF : uint8_t))) (L : Int) hdr
      = Except.ok (List.replicate L (0xFF : uint8_t)) :=
  ⟨scramble_replicate _ spec_transpose_zeros a L hdr,
    descramble_replicate _ spec_transpose_zeros a L hdr,
    scramble_replicate _ spec_transpose_ones a L hdr,
    descramble_replicate _ spec_transpose_ones a L hdr⟩

/-! ## Independence of the blocks -/

theorem block_zero_append (X rest : List uint8_t) (hX : X.length = 8) :
    block (X ++ rest) 0 = X := by
  unfold block
  rw [Nat.mul_zero, List.drop_zero, ← hX, List.take_left]

theorem block_succ_append (X rest : List uint8_t) (hX : X.length = 8) (b : Nat) :
    block (X ++ rest) (b + 1) = block rest b := by
  unfold block
  have h : 8 * (b + 1) = X.length + 8 * b := by omega
  rw [h, List.drop_append]

theorem block_spec_full_blocks (m : List uint8_t) (b : Nat) (h : 8 * b + 8 ≤ m.length) :
    block (spec_full_blocks m) b = spec_transpose (block m b) := by
  induction m using blocks_induction generalizing b with
  | h0 m hm => omega
  | hs X rest hX ih =>
    rw [spec_full_blocks_append X rest hX]
    cases b with
    | zero =>
      rw [block_zero_append _ _ (length_spec_transpose X), block_zero_append _ _ hX]
    | succ b =>
      rw [block_succ_append _ _ (length_spec_transpose X), block_succ_append _ _ hX]
      apply ih
      rw [List.length_append, hX] at h
      omega

theorem length_block (m : List uint8_t) (b : Nat) (h : 8 * b + 8 ≤ m.length) :
    (block m b).length = 8 := by
  unfold block
  rw [List.length_take, List.length_drop]
  omega

theorem spec_transpose_at_comm (z : List uint8_t) (o1 o2 : Nat) (h12 : o1 + 8 ≤ o2)
    (h2 : o2 + 8 ≤ z.length) :
    spec_transpose_at (spec_transpose_at z o1) o2
      = spec_transpose_at (spec_transpose_at z o2) o1 := by
  obtain ⟨P, Y, post, rfl, hP, hY⟩ := exists_split_at z o2 h2
  obtain ⟨pre, X, mid, rfl, hpre, hX⟩ := exists_split_at P o1 (by omega)
  subst hpre
  subst hP
  have hT := length_spec_transpose X
  have a1 : pre ++ X ++ mid ++ Y ++ post = pre ++ X ++ (mid ++ Y ++ post) := by
    simp only [List.append_assoc]
  have a2 : pre ++ spec_transpose X ++ (mid ++ Y ++ post)
      = (pre ++ spec_transpose X ++ mid) ++ Y ++ post := by
    simp only [List.append_assoc]
  have a3 : (pre ++ X ++ mid) ++ spec_transpose Y ++ post
      = pre ++ X ++ (mid ++ spec_transpose Y ++ post) := by
    simp only [List.append_assoc]
  have hl : (pre ++ X ++ mid).length = (pre ++ spec_transpose X ++ mid).length := by
    simp only [List.length_append, hX, hT]
  have l1 : spec_transpose_at (pre ++ X ++ mid ++ Y ++ post) pre.length
      = pre ++ spec_transpose X ++ (mid ++ Y ++ post) := by
    rw [a1]
    exact spec_transpose_at_append pre X _ hX
  have l2 : spec_transpose_at (pre ++ spec_transpose X ++ (mid ++ Y ++ post))
      (pre ++ X ++ mid).length = (pre ++ spec_transpose X ++ mid) ++ spec_transpose Y ++ post := by
    rw [a2, hl]
    exact spec_transpose_at_append _ Y post hY
  have r1 : spec_transpose_at (pre ++ X ++ mid ++ Y ++ post) (pre ++ X ++ mid).length
      = (pre ++ X ++ mid) ++ spec_transpose Y ++ post :=
    spec_transpose_at_append _ Y post hY
  have r2 : spec_transpose_at ((pre ++ X ++ mid) ++ spec_transpose Y ++ post) pre.length
      = pre ++ spec_transpose X ++ (mid ++ spec_transpose Y ++ post) := by
    rw [a3]
    exact spec_transpose_at_append pre X _ hX
  rw [l1, l2, r1, r2]
  simp only [List.append_assoc]

theorem length_transpose_block (m : List uint8_t) (b : Nat) :
    (transpose_block m b).length = m.length := by
  unfold transpose_block
  split
  · exact length_spec_transpose_at m (8 * b) (by omega)
  · rfl

theorem transpose_block_comm (z : List uint8_t) (x y : Nat) :
    transpose_block (transpose_block z x) y = transpose_block (transpose_block z y) x := by
  have key : ∀ (w : List uint8_t) (p q : Nat), p < q →
      transpose_block (transpose_block w p) q = transpose_block (transpose_block w q) p := by
    intro w p q hpq
    by_cases hq : 8 * q + 8 ≤ w.length
    · have hp : 8 * p + 8 ≤ w.length := by omega
      have e1 : transpose_block w p = spec_transpose_at w (8 * p) := by
        unfold transpose_block
        rw [if_pos hp]
      have e2 : transpose_block w q = spec_transpose_at w (8 * q) := by
        unfold transpose_block
        rw [if_pos hq]
      have e3 : transpose_block (spec_transpose_at w (8 * p)) q
          = spec_transpose_at (spec_transpose_at w (8 * p)) (8 * q) := by
        unfold transpose_block
        rw [if_pos (by rw [length_spec_transpose_at w (8 * p) hp]; exact hq)]
      have e4 : transpose_block (spec_transpose_at w (8 * q)) p
          = spec_transpose_at (spec_transpose_at w (8 * q)) (8 * p) := by
        unfold transpose_block
        rw [if_pos (by rw [length_spec_transpose_at w (8 * q) hq]; exact hp)]
      rw [e1, e2, e3, e4]
      exact spec_transpose_at_comm w (8 * p) (8 * q) (by omega) hq
    · have e2 : transpose_block w q = w := by
        unfold transpose_block
        rw [if_neg hq]
      have e3 : transpose_block (transpose_block w p) q = transpose_block w p := by
        have hq2 : ¬ 8 * q + 8 ≤ (transpose_block w p).length := by
          rw [length_transpose_block]
          exact hq
        generalize transpose_block w p = v at hq2
        unfold transpose_block
        rw [if_neg hq2]
      rw [e2, e3]
  rcases Nat.lt_trichotomy x y with h | h | h
  · exact key z x y h
  · subst h
    rfl
  · exact (key z y x h).symm

theorem foldlM_blocks_eq (L : Nat) (is : List Nat) (his : ∀ i, i ∈ is → 8 * i + 8 ≤ L)
    (m : List uint8_t) (hm : m.length = L) :
    is.foldlM (fun (m : List uint8_t) (i : Nat) =>
        skytale_at m ((i : Int) * (BLOCKLEN : Int))) m
      = Except.ok (is.foldl transpose_block m) := by
  apply (foldlM_eq_foldl _ _ (fun m => m.length = L) is _ m hm).1
  intro w i hi hP
  have hoff : 8 * i + 8 ≤ w.length := by
    have := his i hi
    omega
  have hc : (i : Int) * (BLOCKLEN : Int) = ((8 * i : Nat) : Int) := by
    simp [BLOCKLEN]
    omega
  have e : transpose_block w i = spec_transpose_at w (8 * i) := by
    unfold transpose_block
    rw [if_pos hoff]
  rw [hc, skytale_at_eq _ _ hoff, e]
  exact ⟨rfl, (length_spec_transpose_at _ _ hoff).trans hP⟩

theorem foldlM_blocks_perm (B : List uint8_t) (order : List Nat)
    (hp : order.Perm (List.range (B.length / 8))) :
    order.foldlM (fun (m : List uint8_t) (i : Nat) =>
        skytale_at m ((i : Int) * (BLOCKLEN : Int))) B
      = Except.ok (spec_full_blocks B) := by
  have hmem : ∀ i, i ∈ order → 8 * i + 8 ≤ B.length := by
    intro i hi
    have := List.mem_range.mp (hp.subset hi)
    omega
  have hmem2 : ∀ i, i ∈ List.range (B.length / 8) → 8 * i + 8 ≤ B.length := by
    intro i hi
    have := List.mem_range.mp hi
    omega
  have h1 := foldlM_blocks_eq B.length order hmem B rfl
  have h2 := foldlM_blocks_eq B.length (List.range (B.length / 8)) hmem2 B rfl
  have h3 := (block_loop_eq_aux B (B.length / 8) B.length (by omega) rfl).1
  have h4 : order.foldl transpose_block B = (List.range (B.length / 8)).foldl transpose_block B :=
    List.Perm.foldl_eq' hp (fun x _ y _ z => transpose_block_comm z x y) B
  rw [h1, h4, ← h2, h3]
  rfl

/-- Claim C11 (aligned lengths are block-wise independent). With scrambling enabled,
for every buffer `B` whose length `L ≥ 8` is a multiple of 8, `scramble` returns a
buffer `S` of the same length whose block `b` is `skytale` applied to block `b` of `B`
alone, for every `b < L / 8`; and running the `skytale` calls on the blocks in any
order (any permutation of `0, ..., L/8 - 1`) returns the same `S`. -/
theorem aligned_blocks_independent {PacketHeader : Type} (B : List uint8_t)
    (hdr : PacketHeader) (h8 : 8 ≤ B.length) (hal : B.length % 8 = 0) :
    ∃ S, scramble 0 (some B) (B.length : Int) hdr = Except.ok S ∧ S.length = B.length ∧
      (∀ b, b < B.length / 8 → skytale (block B b) = Except.ok (block S b)) ∧
      (∀ order : List Nat, order.Perm (List.range (B.length / 8)) →
        order.foldlM (fun (m : List uint8_t) (i : Nat) =>
          skytale_at m ((i : Int) * (BLOCKLEN : Int))) B = Except.ok S) := by
  refine ⟨spec_full_blocks B, ?_, length_spec_full_blocks B, ?_, ?_⟩
  · rw [scramble_eq B hdr h8, spec_scramble_aligned B hal]
  · intro b hb
    have hb8 : 8 * b + 8 ≤ B.length := by omega
    rw [block_spec_full_blocks B b hb8]
    exact skytale_block _ (length_block B b hb8)
  · intro order hp
    exact foldlM_blocks_perm B order hp

/-- Witness for claim C11: a 16-byte buffer (blocks 0 and 1). -/
theorem aligned_blocks_independent_witness :
    8 ≤ ([1, 2, 3, 4, 5, 6, 7, 8, 9, 10, 11, 12, 13, 14, 15, 16] : List uint8_t).length ∧
    ([1, 2, 3, 4, 5, 6, 7, 8, 9, 10, 11, 12, 13, 14, 15, 16] : List uint8_t).length % 8 = 0 ∧
    ∃ S, scramble 0 (some [1, 2, 3, 4, 5, 6, 7, 8, 9, 10, 11, 12, 13, 14, 15, 16])
          (([1, 2, 3, 4, 5, 6, 7, 8, 9, 10, 11, 12, 13, 14, 15, 16] : List uint8_t).length : Int)
          () = Except.ok S ∧
      S.length = ([1, 2, 3, 4, 5, 6, 7, 8, 9, 10, 11, 12, 13, 14, 15, 16] : List uint8_t).length ∧
      (∀ b, b < ([1, 2, 3, 4, 5, 6, 7, 8, 9, 10, 11, 12, 13, 14, 15, 16] : List uint8_t).length / 8 →
        skytale (block [1, 2, 3, 4, 5, 6, 7, 8, 9, 10, 11, 12, 13, 14, 15, 16] b)
          = Except.ok (block S b)) ∧
      (∀ order : List Nat,
        order.Perm (List.range
          (([1, 2, 3, 4, 5, 6, 7, 8, 9, 10, 11, 12, 13, 14, 15, 16] : List uint8_t).length / 8)) →
        order.foldlM (fun (m : List uint8_t) (i : Nat) =>
          skytale_at m ((i : Int) * (BLOCKLEN : Int)))
          [1, 2, 3, 4, 5, 6, 7, 8, 9, 10, 11, 12, 13, 14, 15, 16] = Except.ok S) :=
  ⟨by decide, by decide,
    aligned_blocks_independent [1, 2, 3, 4, 5, 6, 7, 8, 9, 10, 11, 12, 13, 14, 15, 16] ()
      (by decide) (by decide)⟩

/-! ## The number of set bits -/

theorem popcount8_eq (a : uint8_t) :
    popcount8 a = (a.val.testBit 0).toNat + ((a.val.testBit 1).toNat + ((a.val.testBit 2).toNat
      + ((a.val.testBit 3).toNat + ((a.val.testBit 4).toNat + ((a.val.testBit 5).toNat
      + ((a.val.testBit 6).toNat + ((a.val.testBit 7).toNat + 0))))))) := by
  have hr : List.range 8 = [0, 1, 2, 3, 4, 5, 6, 7] := by decide
  unfold popcount8
  rw [hr]
  simp only [List.map_cons, List.map_nil, List.sum_cons, List.sum_nil]

theorem set_bits_append (l1 l2 : List uint8_t) :
    set_bits (l1 ++ l2) = set_bits l1 + set_bits l2 := by
  unfold set_bits
  rw [List.map_append, List.sum_append]

theorem set_bits_spec_transpose (X : List uint8_t) (h : X.length = 8) :
    set_bits (spec_transpose X) = set_bits X := by
  obtain ⟨a0, a1, a2, a3, a4, a5, a6, a7, rest, rfl⟩ := exists_eq_cons8 X (by omega)
  have hrest : rest = [] := by
    simp at h
    exact h
  subst hrest
  have t0 : ∀ f, (ofBits f).val.testBit 0 = f 0 := fun f => testBit_ofBits f 0 (by decide)
  have t1 : ∀ f, (ofBits f).val.testBit 1 = f 1 := fun f => testBit_ofBits f 1 (by decide)
  have t2 : ∀ f, (ofBits f).val.testBit 2 = f 2 := fun f => testBit_ofBits f 2 (by decide)
  have t3 : ∀ f, (ofBits f).val.testBit 3 = f 3 := fun f => testBit_ofBits f 3 (by decide)
  have t4 : ∀ f, (ofBits f).val.testBit 4 = f 4 := fun f => testBit_ofBits f 4 (by decide)
  have t5 : ∀ f, (ofBits f).val.testBit 5 = f 5 := fun f => testBit_ofBits f 5 (by decide)
  have t6 : ∀ f, (ofBits f).val.testBit 6 = f 6 := fun f => testBit_ofBits f 6 (by decide)
  have t7 : ∀ f, (ofBits f).val.testBit 7 = f 7 := fun f => testBit_ofBits f 7 (by decide)
  rw [spec_transpose_eq]
  simp only [set_bits, List.map_cons, List.map_nil, List.sum_cons, List.sum_nil, popcount8_eq,
    t0, t1, t2, t3, t4, t5, t6, t7, List.getD_cons_zero, List.getD_cons_succ]
  omega

theorem set_bits_spec_transpose_at (m : List uint8_t) (off : Nat) (h : off + 8 ≤ m.length) :
    set_bits (spec_transpose_at m off) = set_bits m := by
  obtain ⟨pre, X, post, rfl, rfl, hX⟩ := exists_split_at m off h
  rw [spec_transpose_at_append _ _ _ hX]
  simp only [set_bits_append, set_bits_spec_transpose X hX]

theorem set_bits_spec_full_blocks (m : List uint8_t) :
    set_bits (spec_full_blocks m) = set_bits m := by
  induction m using blocks_induction with
  | h0 m hm => rw [spec_full_blocks_short m hm]
  | hs X rest hX ih =>
    rw [spec_full_blocks_append X rest hX, set_bits_append, set_bits_append,
      set_bits_spec_transpose X hX, ih]

theorem set_bits_spec_tail (m : List uint8_t) (h : 8 ≤ m.length) :
    set_bits (spec_tail m) = set_bits m := by
  unfold spec_tail
  split
  · rfl
  · exact set_bits_spec_transpose_at m _ (by omega)

theorem set_bits_spec_scramble (m : List uint8_t) (h : 8 ≤ m.length) :
    set_bits (spec_scramble m) = set_bits m := by
  unfold spec_scramble
  rw [set_bits_spec_tail _ (by rw [length_spec_full_blocks]; exact h),
    set_bits_spec_full_blocks]

theorem set_bits_spec_descramble (m : List uint8_t) (h : 8 ≤ m.length) :
    set_bits (spec_descramble m) = set_bits m := by
  unfold spec_descramble
  rw [set_bits_spec_full_blocks, set_bits_spec_tail m h]

/-- Claim C14 (the transform only reorders bits). For every buffer `B` and every
toggle value, `scramble` and `descramble` called with `len = |B|` return a buffer with
the same total number of set bits as `B`; and `skytale` on an 8-byte block returns a
block with the same number of set bits. -/
theorem set_bits_preserved {PacketHeader : Type} (a : Int) (B : List uint8_t)
    (hdr : PacketHeader) :
    (∃ S, scramble a (some B) (B.length : Int) hdr = Except.ok S ∧ set_bits S = set_bits B) ∧
    (∃ D, descramble a (some B) (B.length : Int) hdr = Except.ok D ∧
      set_bits D = set_bits B) ∧
    (∀ X : List uint8_t, X.length = 8 →
      ∃ Y, skytale X = Except.ok Y ∧ set_bits Y = set_bits X) := by
  obtain ⟨S, hS, _, hS1, hS2⟩ := scramble_total a B hdr
  obtain ⟨D, hD, _, hD1, hD2⟩ := descramble_total a B hdr
  refine ⟨⟨S, hS, ?_⟩, ⟨D, hD, ?_⟩, ?_⟩
  · by_cases h : a ≠ 0 ∨ B.length < 8
    · rw [hS1 h]
    · have ha : a = 0 := by
        by_contra hne
        exact h (Or.inl hne)
      have h8 : 8 ≤ B.length := by
        by_contra hlt
        exact h (Or.inr (by omega))
      rw [hS2 ⟨ha, h8⟩, set_bits_spec_scramble B h8]
  · by_cases h : a ≠ 0 ∨ B.length < 8
    · rw [hD1 h]
    · have ha : a = 0 := by
        by_contra hne
        exact h (Or.inl hne)
      have h8 : 8 ≤ B.length := by
        by_contra hlt
        exact h (Or.inr (by omega))
      rw [hD2 ⟨ha, h8⟩, set_bits_spec_descramble B h8]
  · intro X hX
    exact ⟨spec_transpose X, skytale_block X hX, set_bits_spec_transpose X hX⟩

/-! ## Exclusive or -/

theorem xor8_val (a b : uint8_t) : (xor8 a b).val = a.val ^^^ b.val := by
  have h : a.val ^^^ b.val < 2 ^ 8 := Nat.xor_lt_two_pow a.isLt b.isLt
  show (a.val ^^^ b.val) % 256 = a.val ^^^ b.val
  exact Nat.mod_eq_of_lt h

theorem testBit_xor8 (a b : uint8_t) (j : Nat) :
    (xor8 a b).val.testBit j = xor (a.val.testBit j) (b.val.testBit j) := by
  rw [xor8_val, Nat.testBit_xor]

theorem ofBits_xor (f g : Nat → Bool) :
    ofBits (fun j => xor (f j) (g j)) = xor8 (ofBits f) (ofBits g) := by
  apply Fin.ext
  apply Nat.eq_of_testBit_eq
  intro j
  by_cases hj : j < 8
  · rw [testBit_xor8, testBit_ofBits _ j hj, testBit_ofBits _ j hj, testBit_ofBits _ j hj]
  · rw [testBit_uint8_high _ j (by omega), testBit_uint8_high _ j (by omega)]

theorem xor8_zero_zero : xor8 0 0 = 0 := by
  decide

theorem getD_xor_buf (X Y : List uint8_t) (h : X.length = Y.length) (j : Nat) :
    (xor_buf X Y).getD j 0 = xor8 (X.getD j 0) (Y.getD j 0) := by
  induction X generalizing Y j with
  | nil =>
    cases Y with
    | nil => exact xor8_zero_zero.symm
    | cons y ys => cases h
  | cons x xs ih =>
    cases Y with
    | nil => cases h
    | cons y ys =>
      have hl : xs.length = ys.length := by
        simp only [List.length_cons] at h
        omega
      cases j with
      | zero => rfl
      | succ j =>
        show (xor_buf xs ys).getD j 0 = xor8 (xs.getD j 0) (ys.getD j 0)
        exact ih ys hl j

theorem length_xor_buf (X Y : List uint8_t) (h : X.length = Y.length) :
    (xor_buf X Y).length = X.length := by
  unfold xor_buf
  rw [List.length_zipWith, h, Nat.min_self]

theorem spec_transpose_xor (X Y : List uint8_t) (h : X.length = Y.length) :
    spec_transpose (xor_buf X Y) = xor_buf (spec_transpose X) (spec_transpose Y) := by
  have e : ∀ (p q : Nat → uint8_t) (r : List Nat),
      xor_buf (r.map p) (r.map q) = r.map (fun i => xor8 (p i) (q i)) := by
    intro p q r
    unfold xor_buf
    rw [List.zipWith_map, List.zipWith_same]
  unfold spec_transpose
  rw [e]
  apply List.map_congr_left
  intro i _
  rw [← ofBits_xor]
  congr 1
  funext j
  rw [getD_xor_buf X Y h j, testBit_xor8]

theorem take_xor_buf (B C : List uint8_t) (n : Nat) :
    (xor_buf B C).take n = xor_buf (B.take n) (C.take n) :=
  List.take_zipWith

theorem drop_xor_buf (B C : List uint8_t) (n : Nat) :
    (xor_buf B C).drop n = xor_buf (B.drop n) (C.drop n) :=
  List.drop_zipWith

theorem xor_buf_append (l la l2 lb : List uint8_t) (h : l.length = l2.length) :
    xor_buf (l ++ la) (l2 ++ lb) = xor_buf l l2 ++ xor_buf la lb :=
  List.zipWith_append xor8 l la l2 lb h

theorem length_spec_transpose_at_eq (B C : List uint8_t) (h : B.length = C.length) (off : Nat) :
    (spec_transpose_at B off).length = (spec_transpose_at C off).length := by
  simp only [spec_transpose_at, List.length_append, List.length_take, List.length_drop,
    length_spec_transpose, h]

theorem spec_transpose_at_xor (B C : List uint8_t) (h : B.length = C.length) (off : Nat) :
    spec_transpose_at (xor_buf B C) off
      = xor_buf (spec_transpose_at B off) (spec_transpose_at C off) := by
  have h1 : (B.take off).length = (C.take off).length := by
    rw [List.length_take, List.length_take, h]
  have h2 : ((B.drop off).take 8).length = ((C.drop off).take 8).length := by
    rw [List.length_take, List.length_take, List.length_drop, List.length_drop, h]
  have h3 : (B.take off ++ spec_transpose ((B.drop off).take 8)).length
      = (C.take off ++ spec_transpose ((C.drop off).take 8)).length := by
    rw [List.length_append, List.length_append, h1, length_spec_transpose,
      length_spec_transpose]
  unfold spec_transpose_at
  rw [xor_buf_append _ _ _ _ h3, xor_buf_append _ _ _ _ h1, take_xor_buf, drop_xor_buf,
    drop_xor_buf, take_xor_buf, spec_transpose_xor _ _ h2]

theorem foldl_transpose_xor (is : List Nat) (B C : List uint8_t) (h : B.length = C.length) :
    is.foldl (fun m b => spec_transpose_at m (8 * b)) (xor_buf B C)
      = xor_buf (is.foldl (fun m b => spec_transpose_at m (8 * b)) B)
          (is.foldl (fun m b => spec_transpose_at m (8 * b)) C) := by
  induction is generalizing B C with
  | nil => rfl
  | cons i is ih =>
    rw [List.foldl_cons, List.foldl_cons, List.foldl_cons, spec_transpose_at_xor B C h,
      ih _ _ (length_spec_transpose_at_eq B C h (8 * i))]

theorem spec_full_blocks_xor (B C : List uint8_t) (h : B.length = C.length) :
    spec_full_blocks (xor_buf B C) = xor_buf (spec_full_blocks B) (spec_full_blocks C) := by
  unfold spec_full_blocks
  rw [length_xor_buf B C h, ← h]
  exact foldl_transpose_xor _ B C h

theorem spec_tail_xor (B C : List uint8_t) (h : B.length = C.length) :
    spec_tail (xor_buf B C) = xor_buf (spec_tail B) (spec_tail C) := by
  unfold spec_tail
  rw [length_xor_buf B C h, ← h]
  split
  · rfl
  · exact spec_transpose_at_xor B C h _

theorem spec_scramble_xor (B C : List uint8_t) (h : B.length = C.length) :
    spec_scramble (xor_buf B C) = xor_buf (spec_scramble B) (spec_scramble C) := by
  unfold spec_scramble
  rw [spec_full_blocks_xor B C h,
    spec_tail_xor _ _ (by rw [length_spec_full_blocks, length_spec_full_blocks, h])]

theorem spec_descramble_xor (B C : List uint8_t) (h : B.length = C.length) :
    spec_descramble (xor_buf B C) = xor_buf (spec_descramble B) (spec_descramble C) := by
  unfold spec_descramble
  have hl : (spec_tail B).length = (spec_tail C).length := by
    unfold spec_tail
    rw [← h]
    split
    · exact h
    · exact length_spec_transpose_at_eq B C h _
  rw [spec_tail_xor B C h, spec_full_blocks_xor _ _ hl]

theorem scramble_xor {PacketHeader : Type} (a : Int) (B C : List uint8_t) (hdr : PacketHeader)
    (h : B.length = C.length) :
    ∃ S1 S2, scramble a (some B) (B.length : Int) hdr = Except.ok S1 ∧
      scramble a (some C) (B.length : Int) hdr = Except.ok S2 ∧
      scramble a (some (xor_buf B C)) (B.length : Int) hdr = Except.ok (xor_buf S1 S2) := by
  have hx := length_xor_buf B C h
  obtain ⟨S1, e1, _, p1, q1⟩ := scramble_total a B hdr
  obtain ⟨S2, e2, _, p2, q2⟩ := scramble_total a C hdr
  obtain ⟨S3, e3, _, p3, q3⟩ := scramble_total a (xor_buf B C) hdr
  rw [← h] at e2 p2 q2
  rw [hx] at e3 p3 q3
  refine ⟨S1, S2, e1, e2, ?_⟩
  rw [e3]
  by_cases hg : a ≠ 0 ∨ B.length < 8
  · rw [p1 hg, p2 hg, p3 hg]
  · have ha : a = 0 := by
      by_contra hne
      exact hg (Or.inl hne)
    have h8 : 8 ≤ B.length := by
      by_contra hlt
      exact hg (Or.inr (by omega))
    rw [q1 ⟨ha, h8⟩, q2 ⟨ha, h8⟩, q3 ⟨ha, h8⟩, spec_scramble_xor B C h]

theorem descramble_xor {PacketHeader : Type} (a : Int) (B C : List uint8_t)
    (hdr : PacketHeader) (h : B.length = C.length) :
    ∃ D1 D2, descramble a (some B) (B.length : Int) hdr = Except.ok D1 ∧
      descramble a (some C) (B.length : Int) hdr = Except.ok D2 ∧
      descramble a (some (xor_buf B C)) (B.length : Int) hdr = Except.ok (xor_buf D1 D2) := by
  have hx := length_xor_buf B C h
  obtain ⟨S1, e1, _, p1, q1⟩ := descramble_total a B hdr
  obtain ⟨S2, e2, _, p2, q2⟩ := descramble_total a C hdr
  obtain ⟨S3, e3, _, p3, q3⟩ := descramble_total a (xor_buf B C) hdr
  rw [← h] at e2 p2 q2
  rw [hx] at e3 p3 q3
  refine ⟨S1, S2, e1, e2, ?_⟩
  rw [e3]
  by_cases hg : a ≠ 0 ∨ B.length < 8
  · rw [p1 hg, p2 hg, p3 hg]
  · have ha : a = 0 := by
      by_contra hne
      exact hg (Or.inl hne)
    have h8 : 8 ≤ B.length := by
      by_contra hlt
      exact hg (Or.inr (by omega))
    rw [q1 ⟨ha, h8⟩, q2 ⟨ha, h8⟩, q3 ⟨ha, h8⟩, spec_descramble_xor B C h]

/-- Claim C18 (XOR-linearity). For all buffers `B` and `C` of the same length and every
toggle value, `scramble` of the byte-wise xor of `B` and `C` is the byte-wise xor of
`scramble` of `B` and `scramble` of `C`, likewise for `descramble`; and for all 8-byte
blocks `X` and `Y`, `skytale` of `X xor Y` is the xor of `skytale X` and `skytale Y`. -/
theorem xor_linearity {PacketHeader : Type} (a : Int) (B C : List uint8_t) (hdr : PacketHeader)
    (h : B.length = C.length) :
    (∃ S1 S2, scramble a (some B) (B.length : Int) hdr = Except.ok S1 ∧
      scramble a (some C) (B.length : Int) hdr = Except.ok S2 ∧
      scramble a (some (xor_buf B C)) (B.length : Int) hdr = Except.ok (xor_buf S1 S2)) ∧
    (∃ D1 D2, descramble a (some B) (B.length : Int) hdr = Except.ok D1 ∧
      descramble a (some C) (B.length : Int) hdr = Except.ok D2 ∧
      descramble a (some (xor_buf B C)) (B.length : Int) hdr = Except.ok (xor_buf D1 D2)) ∧
    (∀ X Y : List uint8_t, X.length = 8 → Y.length = 8 →
      ∃ U V, skytale X = Except.ok U ∧ skytale Y = Except.ok V ∧
        skytale (xor_buf X Y) = Except.ok (xor_buf U V)) := by
  refine ⟨scramble_xor a B C hdr h, descramble_xor a B C hdr h, ?_⟩
  intro X Y hX hY
  refine ⟨spec_transpose X, spec_transpose Y, skytale_block X hX, skytale_block Y hY, ?_⟩
  have hXY : X.length = Y.length := by rw [hX, hY]
  rw [skytale_block _ ((length_xor_buf X Y hXY).trans hX), spec_transpose_xor X Y hXY]

/-- Witness for claim C18: two 11-byte buffers with scrambling enabled. -/
theorem xor_linearity_witness :
    ([1, 2, 3, 4, 5, 6, 7, 8, 9, 10, 11] : List uint8_t).length
      = ([255, 0, 128, 64, 32, 16, 8, 4, 2, 1, 170] : List uint8_t).length ∧
    ((∃ S1 S2, scramble 0 (some [1, 2, 3, 4, 5, 6, 7, 8, 9, 10, 11])
          (([1, 2, 3, 4, 5, 6, 7, 8, 9, 10, 11] : List uint8_t).length : Int) ()
          = Except.ok S1 ∧
        scramble 0 (some [255, 0, 128, 64, 32, 16, 8, 4, 2, 1, 170])
          (([1, 2, 3, 4, 5, 6, 7, 8, 9, 10, 11] : List uint8_t).length : Int) ()
          = Except.ok S2 ∧
        scramble 0 (some (xor_buf [1, 2, 3, 4, 5, 6, 7, 8, 9, 10, 11]
            [255, 0, 128, 64, 32, 16, 8, 4, 2, 1, 170]))
          (([1, 2, 3, 4, 5, 6, 7, 8, 9, 10, 11] : List uint8_t).length : Int) ()
          = Except.ok (xor_buf S1 S2)) ∧
     (∃ D1 D2, descramble 0 (some [1, 2, 3, 4, 5, 6, 7, 8, 9, 10, 11])
          (([1, 2, 3, 4, 5, 6, 7, 8, 9, 10, 11] : List uint8_t).length : Int) ()
          = Except.ok D1 ∧
        descramble 0 (some [255, 0, 128, 64, 32, 16, 8, 4, 2, 1, 170])
          (([1, 2, 3, 4, 5, 6, 7, 8, 9, 10, 11] : List uint8_t).length : Int) ()
          = Except.ok D2 ∧
        descramble 0 (some (xor_buf [1, 2, 3, 4, 5, 6, 7, 8, 9, 10, 11]
            [255, 0, 128, 64, 32, 16, 8, 4, 2, 1, 170]))
          (([1, 2, 3, 4, 5, 6, 7, 8, 9, 10, 11] : List uint8_t).length : Int) ()
          = Except.ok (xor_buf D1 D2)) ∧
     (∀ X Y : List uint8_t, X.length = 8 → Y.length = 8 →
        ∃ U V, skytale X = Except.ok U ∧ skytale Y = Except.ok V ∧
          skytale (xor_buf X Y) = Except.ok (xor_buf U V))) :=
  ⟨rfl, xor_linearity 0 [1, 2, 3, 4, 5, 6, 7, 8, 9, 10, 11]
    [255, 0, 128, 64, 32, 16, 8, 4, 2, 1, 170] () rfl⟩

/-! ## The packet header argument -/

theorem scramble_call_hdr {PacketHeader : Type} (a : Int) (s t : CallState PacketHeader)
    (len : Int) (h : scramble_call a s len = Except.ok t) :
    t.hdr = s.hdr ∧ scramble a s.buf len s.hdr = Except.ok (t.buf.getD []) := by
  unfold scramble_call at h
  cases hs : scramble a s.buf len s.hdr with
  | error e =>
    rw [hs] at h
    cases h
  | ok m =>
    rw [hs] at h
    cases h
    exact ⟨rfl, rfl⟩

theorem descramble_call_hdr {PacketHeader : Type} (a : Int) (s t : CallState PacketHeader)
    (len : Int) (h : descramble_call a s len = Except.ok t) :
    t.hdr = s.hdr ∧ descramble a s.buf len s.hdr = Except.ok (t.buf.getD []) := by
  unfold descramble_call at h
  cases hs : descramble a s.buf len s.hdr with
  | error e =>
    rw [hs] at h
    cases h
  | ok m =>
    rw [hs] at h
    cases h
    exact ⟨rfl, rfl⟩

/-- Claim C15 (the context is inert). For every buffer pointer, `len`, toggle value and
any two header values `h1`, `h2`, `scramble` gives the same result with `h1` as with
`h2`, and so does `descramble`; a call on a present buffer with `len = |B|` returns, and
whenever a call returns, the header object is the same after the call as before. -/
theorem context_inert {PacketHeader : Type} (a : Int) (ptr : Option (List uint8_t)) (len : Int)
    (h1 h2 : PacketHeader) :
    scramble a ptr len h1 = scramble a ptr len h2 ∧
    descramble a ptr len h1 = descramble a ptr len h2 ∧
    (∀ t, scramble_call a { buf := ptr, hdr := h1 } len = Except.ok t → t.hdr = h1) ∧
    (∀ t, descramble_call a { buf := ptr, hdr := h1 } len = Except.ok t → t.hdr = h1) ∧
    (∀ B : List uint8_t, ptr = some B → len = (B.length : Int) →
      (∃ t, scramble_call a { buf := ptr, hdr := h1 } len = Except.ok t ∧ t.hdr = h1) ∧
      (∃ t, descramble_call a { buf := ptr, hdr := h1 } len = Except.ok t ∧ t.hdr = h1)) := by
  refine ⟨rfl, rfl, ?_, ?_, ?_⟩
  · intro t ht
    exact (scramble_call_hdr a _ t len ht).1
  · intro t ht
    exact (descramble_call_hdr a _ t len ht).1
  · intro B hB hlen
    subst hB
    subst hlen
    obtain ⟨S, hS, _⟩ := scramble_total a B h1
    obtain ⟨D, hD, _⟩ := descramble_total a B h1
    constructor
    · refine ⟨{ buf := some S, hdr := h1 }, ?_, rfl⟩
      simp only [scramble_call, hS]
    · refine ⟨{ buf := some D, hdr := h1 }, ?_, rfl⟩
      simp only [descramble_call, hD]

/-! ## Instances at an 11-byte buffer -/

/-- Witness for claim C13: the 11-byte buffer `[1, ..., 11]` with scrambling enabled. -/
theorem length_invariance_witness :
    (∃ S, scramble 0 (some [1, 2, 3, 4, 5, 6, 7, 8, 9, 10, 11]) (([1, 2, 3, 4, 5, 6, 7, 8, 9, 10, 11] : List uint8_t).length : Int) ()
        = Except.ok S ∧ S.length = ([1, 2, 3, 4, 5, 6, 7, 8, 9, 10, 11] : List uint8_t).length) ∧
    (∃ D, descramble 0 (some [1, 2, 3, 4, 5, 6, 7, 8, 9, 10, 11]) (([1, 2, 3, 4, 5, 6, 7, 8, 9, 10, 11] : List uint8_t).length : Int) ()
        = Except.ok D ∧ D.length = ([1, 2, 3, 4, 5, 6, 7, 8, 9, 10, 11] : List uint8_t).length) ∧
    (∀ (len : Int) (S : List uint8_t),
      scramble 0 (some [1, 2, 3, 4, 5, 6, 7, 8, 9, 10, 11]) len () = Except.ok S → S.length = ([1, 2, 3, 4, 5, 6, 7, 8, 9, 10, 11] : List uint8_t).length) ∧
    (∀ (len : Int) (D : List uint8_t),
      descramble 0 (some [1, 2, 3, 4, 5, 6, 7, 8, 9, 10, 11]) len () = Except.ok D → D.length = ([1, 2, 3, 4, 5, 6, 7, 8, 9, 10, 11] : List uint8_t).length) ∧
    (∀ X : List uint8_t, X.length = 8 → ∃ Y, skytale X = Except.ok Y ∧ Y.length = 8) :=
  length_invariance 0 [1, 2, 3, 4, 5, 6, 7, 8, 9, 10, 11] ()

/-- Witness for claim C14: the 11-byte buffer `[1, ..., 11]`, which has 20 set bits. -/
theorem set_bits_preserved_witness :
    set_bits [1, 2, 3, 4, 5, 6, 7, 8, 9, 10, 11] = 20 ∧
    (∃ S, scramble 0 (some [1, 2, 3, 4, 5, 6, 7, 8, 9, 10, 11]) (([1, 2, 3, 4, 5, 6, 7, 8, 9, 10, 11] : List uint8_t).length : Int) ()
        = Except.ok S ∧ set_bits S = set_bits [1, 2, 3, 4, 5, 6, 7, 8, 9, 10, 11]) ∧
    (∃ D, descramble 0 (some [1, 2, 3, 4, 5, 6, 7, 8, 9, 10, 11]) (([1, 2, 3, 4, 5, 6, 7, 8, 9, 10, 11] : List uint8_t).length : Int) ()
        = Except.ok D ∧ set_bits D = set_bits [1, 2, 3, 4, 5, 6, 7, 8, 9, 10, 11]) ∧
    (∀ X : List uint8_t, X.length = 8 →
      ∃ Y, skytale X = Except.ok Y ∧ set_bits Y = set_bits X) :=
  ⟨by decide, set_bits_preserved 0 [1, 2, 3, 4, 5, 6, 7, 8, 9, 10, 11] ()⟩

/-- Witness for claim C16: the 11-byte buffer `[1, ..., 11]` with scrambling enabled. -/
theorem accesses_in_bounds_witness :
    (∃ S, scramble 0 (some [1, 2, 3, 4, 5, 6, 7, 8, 9, 10, 11]) (([1, 2, 3, 4, 5, 6, 7, 8, 9, 10, 11] : List uint8_t).length : Int) () = Except.ok S) ∧
    (∃ D, descramble 0 (some [1, 2, 3, 4, 5, 6, 7, 8, 9, 10, 11]) (([1, 2, 3, 4, 5, 6, 7, 8, 9, 10, 11] : List uint8_t).length : Int) () = Except.ok D) ∧
    (∀ i : Nat, i < ([1, 2, 3, 4, 5, 6, 7, 8, 9, 10, 11] : List uint8_t).length / 8 →
      0 ≤ (i : Int) * (BLOCKLEN : Int) ∧
      (i : Int) * (BLOCKLEN : Int) + 7 < (([1, 2, 3, 4, 5, 6, 7, 8, 9, 10, 11] : List uint8_t).length : Int) ∧
      ∀ m : List uint8_t, m.length = ([1, 2, 3, 4, 5, 6, 7, 8, 9, 10, 11] : List uint8_t).length →
        ∃ r, skytale_at m ((i : Int) * (BLOCKLEN : Int)) = Except.ok r) ∧
    (8 ≤ ([1, 2, 3, 4, 5, 6, 7, 8, 9, 10, 11] : List uint8_t).length →
      0 ≤ (([1, 2, 3, 4, 5, 6, 7, 8, 9, 10, 11] : List uint8_t).length : Int) - (BLOCKLEN : Int) ∧
      (([1, 2, 3, 4, 5, 6, 7, 8, 9, 10, 11] : List uint8_t).length : Int) - (BLOCKLEN : Int) + 7 < (([1, 2, 3, 4, 5, 6, 7, 8, 9, 10, 11] : List uint8_t).length : Int) ∧
      ∀ m : List uint8_t, m.length = ([1, 2, 3, 4, 5, 6, 7, 8, 9, 10, 11] : List uint8_t).length →
        ∃ r, skytale_at m ((([1, 2, 3, 4, 5, 6, 7, 8, 9, 10, 11] : List uint8_t).length : Int) - (BLOCKLEN : Int)) = Except.ok r) :=
  accesses_in_bounds 0 [1, 2, 3, 4, 5, 6, 7, 8, 9, 10, 11] ()

/-- Witness for claim C15: the 11-byte buffer `[1, ..., 11]` with headers `3` and `4`. -/
theorem context_inert_witness :
    scramble 0 (some [1, 2, 3, 4, 5, 6, 7, 8, 9, 10, 11]) 11 (3 : Nat) = scramble 0 (some [1, 2, 3, 4, 5, 6, 7, 8, 9, 10, 11]) 11 (4 : Nat) ∧
    descramble 0 (some [1, 2, 3, 4, 5, 6, 7, 8, 9, 10, 11]) 11 (3 : Nat) = descramble 0 (some [1, 2, 3, 4, 5, 6, 7, 8, 9, 10, 11]) 11 (4 : Nat) ∧
    (∀ t, scramble_call 0 { buf := some [1, 2, 3, 4, 5, 6, 7, 8, 9, 10, 11], hdr := (3 : Nat) } 11 = Except.ok t →
      t.hdr = 3) ∧
    (∀ t, descramble_call 0 { buf := some [1, 2, 3, 4, 5, 6, 7, 8, 9, 10, 11], hdr := (3 : Nat) } 11 = Except.ok t →
      t.hdr = 3) ∧
    (∀ B : List uint8_t, some [1, 2, 3, 4, 5, 6, 7, 8, 9, 10, 11] = some B → (11 : Int) = (B.length : Int) →
      (∃ t, scramble_call 0 { buf := some [1, 2, 3, 4, 5, 6, 7, 8, 9, 10, 11], hdr := (3 : Nat) } 11 = Except.ok t ∧
        t.hdr = 3) ∧
      (∃ t, descramble_call 0 { buf := some [1, 2, 3, 4, 5, 6, 7, 8, 9, 10, 11], hdr := (3 : Nat) } 11 = Except.ok t ∧
        t.hdr = 3)) :=
  context_inert 0 (some [1, 2, 3, 4, 5, 6, 7, 8, 9, 10, 11]) 11 3 4

end Firetunnel
